import Mathlib

/-!
Verification development for the hexagon in-memory key-value cache.

The development shallowly embeds the two code layers of the repository:

* `ProgressiveHashMap.h` - the progressive (incremental) hash table with two
  tables `ht1`/`ht2`, a resize cursor `resizing_pos`, separate chaining and
  power-of-two capacities.  Machine `size_t` values are modelled as `Nat`;
  the C++ `std::hash` is an explicit hash-function parameter `hf`; the
  bucket index `h & mask` is `hf k &&& mask`.

* `server.cpp` - the command interpreter `do_request` with its four indices
  (progressive map, LRU list, LFU frequency groups, TTL set), the request
  parser `parse_req`, the framing logic `try_one_request`, and the
  sliding-head connection buffer `Conn::Buffer`.

C++ loops are rendered as structurally recursive functions whose fuel is
the loop variant (for the migration loop: the number of buckets after the
cursor), so that every definition evaluates by kernel reduction.
`std::list`/`std::map` iterators held inside entries are modelled as
freshly numbered node identifiers; `std::chrono` instants are `Int`
nanosecond counts, and each executed command is evaluated at a single
instant `now`.
-/

open List

namespace Hexagon

/-! ### Progressive hash map (ProgressiveHashMap.h) -/

/-- One hash table: chained buckets, entry count, and bit mask
(`mask = capacity - 1`). -/
structure HTable (K V : Type) where
  buckets : List (List (K × V))
  size : Nat
  mask : Nat
deriving DecidableEq

/-- The whole progressive map: main table `ht1`, resize target `ht2`
(absent unless a resize is active), migration cursor and direction flag. -/
structure ProgressiveHashMap (K V : Type) where
  ht1 : HTable K V
  ht2 : Option (HTable K V)
  resizing_pos : Nat
  is_shrinking : Bool
deriving DecidableEq

variable {K V : Type} [DecidableEq K]

/-- Chain search: value of the first entry with the given key
(the dereference of C++ `lookup_bucket` when it finds the key). -/
def chainFind : List (K × V) → K → Option V
  | [], _ => none
  | (k', v) :: rest, k => if k' = k then some v else chainFind rest k

/-- Replace the value of the first entry with the given key
(the in-place update `(*entry_ptr)->value = value` in `set`). -/
def chainReplace : List (K × V) → K → V → List (K × V)
  | [], _, _ => []
  | (k', v') :: rest, k, v =>
    if k' = k then (k', v) :: rest else (k', v') :: chainReplace rest k v

/-- Unlink the first entry with the given key (the splice in `del`). -/
def chainRemove : List (K × V) → K → List (K × V)
  | [], _ => []
  | (k', v') :: rest, k => if k' = k then rest else (k', v') :: chainRemove rest k

/-- The chain stored in bucket `i` (an index past the vector is empty). -/
def HTable.bucketAt (t : HTable K V) (i : Nat) : List (K × V) := t.buckets.getD i []

/-- Bucket index of a key: `hash(key) & mask`. -/
def HTable.bidx (hf : K → Nat) (t : HTable K V) (k : K) : Nat := hf k &&& t.mask

/-- Table lookup through `lookup_bucket`: search the key's chain. -/
def HTable.find (hf : K → Nat) (t : HTable K V) (k : K) : Option V :=
  chainFind (t.bucketAt (t.bidx hf k)) k

/-- In-place value update of an existing key inside its chain. -/
def HTable.replace (hf : K → Nat) (t : HTable K V) (k : K) (v : V) : HTable K V :=
  { t with buckets := t.buckets.set (t.bidx hf k) (chainReplace (t.bucketAt (t.bidx hf k)) k v) }

/-- Push a new entry at the head of its chain and count it
(`new_entry->next = target->buckets[idx]; target->buckets[idx] = new_entry`). -/
def HTable.pushFront (hf : K → Nat) (t : HTable K V) (k : K) (v : V) : HTable K V :=
  { t with buckets := t.buckets.set (t.bidx hf k) ((k, v) :: t.bucketAt (t.bidx hf k)),
           size := t.size + 1 }

/-- Unlink the key from its chain and uncount it (the found branch of `del`). -/
def HTable.removeKey (hf : K → Nat) (t : HTable K V) (k : K) : HTable K V :=
  { t with buckets := t.buckets.set (t.bidx hf k) (chainRemove (t.bucketAt (t.bidx hf k)) k),
           size := t.size - 1 }

/-- The capacity-rounding loop of the `HashTable` constructor
(`cap = 1; while (cap < capacity) cap *= 2;`), with the loop variant as fuel. -/
def roundPow2 : Nat → Nat → Nat → Nat
  | 0, _, acc => acc
  | fuel + 1, target, acc => if acc < target then roundPow2 fuel target (acc * 2) else acc

/-- A freshly constructed `HashTable(capacity)`: empty buckets, power-of-two
capacity, `mask = capacity - 1`. -/
def newHashTable (K V : Type) (capacity : Nat) : HTable K V :=
  let cap := roundPow2 capacity capacity 1
  { buckets := List.replicate cap [], size := 0, mask := cap - 1 }

/-- Migrate one drained chain into `ht2`, entry by entry, each pushed at the
head of its new bucket (the inner `while (*bucket)` loop of `help_resizing`). -/
def moveChain (hf : K → Nat) : List (K × V) → HTable K V → HTable K V
  | [], t2 => t2
  | kv :: rest, t2 => moveChain hf rest (t2.pushFront hf kv.1 kv.2)

/-- The migration loop of `help_resizing` with `REHASH_STEPS = 1`: skip empty
buckets, drain the first non-empty bucket wholly into `ht2`, advance the
cursor past it; fuel is the number of buckets left. -/
def helpFrom (hf : K → Nat) : Nat → HTable K V → HTable K V → Nat → HTable K V × HTable K V × Nat
  | 0, t1, t2, pos => (t1, t2, pos)
  | fuel + 1, t1, t2, pos =>
    if pos < t1.buckets.length then
      match t1.bucketAt pos with
      | [] => helpFrom hf fuel t1 t2 (pos + 1)
      | b0 :: brest =>
        ({ t1 with buckets := t1.buckets.set pos [],
                   size := t1.size - (b0 :: brest).length },
         moveChain hf (b0 :: brest) t2, pos + 1)
    else (t1, t2, pos)

/-- `help_resizing`: a no-op without an active resize; otherwise run the
migration loop and, when the cursor has passed the last `ht1` bucket,
promote `ht2` to be the main table. -/
def ProgressiveHashMap.help_resizing (hf : K → Nat) (s : ProgressiveHashMap K V) :
    ProgressiveHashMap K V :=
  match s.ht2 with
  | none => s
  | some t2 =>
    let r := helpFrom hf (s.ht1.buckets.length - s.resizing_pos) s.ht1 t2 s.resizing_pos
    if r.1.buckets.length ≤ r.2.2 then
      { ht1 := r.2.1, ht2 := none, resizing_pos := 0, is_shrinking := false }
    else
      { ht1 := r.1, ht2 := some r.2.1, resizing_pos := r.2.2, is_shrinking := s.is_shrinking }

/-- `start_resizing`: allocate the target table at double (grow) or half
(shrink, never below `MIN_CAPACITY = 16`) the current capacity. -/
def ProgressiveHashMap.start_resizing (s : ProgressiveHashMap K V) (shrink : Bool) :
    ProgressiveHashMap K V :=
  if shrink then
    let nc := s.ht1.buckets.length / 2
    if nc < 16 then s
    else { s with ht2 := some (newHashTable K V nc), resizing_pos := 0, is_shrinking := true }
  else
    { s with ht2 := some (newHashTable K V (s.ht1.buckets.length * 2)),
             resizing_pos := 0, is_shrinking := false }

/-- `check_load_factor`: only when no resize is active, grow when
`size/capacity > 0.75` and shrink when `size/capacity < 0.25` with capacity
above 16.  The C++ compares `double` quotients against 0.75/0.25; both
comparisons are rendered exactly as the equivalent integer inequalities. -/
def ProgressiveHashMap.check_load_factor (s : ProgressiveHashMap K V) :
    ProgressiveHashMap K V :=
  if s.ht2.isSome then s
  else if 3 * s.ht1.buckets.length < 4 * s.ht1.size then s.start_resizing false
  else if 4 * s.ht1.size < s.ht1.buckets.length ∧ 16 < s.ht1.buckets.length then
    s.start_resizing true
  else s

/-- `get_insert_table`, as the choice of target: `true` means `ht2`.  A new
key goes to `ht2` exactly when a resize is active and its `ht1` bucket has
already been drained (`bucket index < resizing_pos`). -/
def ProgressiveHashMap.get_insert_table (hf : K → Nat) (s : ProgressiveHashMap K V) (k : K) :
    Bool :=
  match s.ht2 with
  | none => false
  | some _ => decide (s.ht1.bidx hf k < s.resizing_pos)

/-- The tail of `set` inserting a brand-new key into the routed table. -/
def ProgressiveHashMap.insertNew (hf : K → Nat) (s : ProgressiveHashMap K V) (k : K) (v : V) :
    ProgressiveHashMap K V :=
  if s.get_insert_table hf k then
    match s.ht2 with
    | some t2 => { s with ht2 := some (t2.pushFront hf k v) }
    | none => { s with ht1 := s.ht1.pushFront hf k v }
  else { s with ht1 := s.ht1.pushFront hf k v }

/-- `ProgressiveHashMap::set`: help the resize, update in place if the key is
found in `ht2` then `ht1`, otherwise insert into the routed table and
re-check the load factor. -/
def ProgressiveHashMap.set (hf : K → Nat) (s : ProgressiveHashMap K V) (k : K) (v : V) :
    ProgressiveHashMap K V :=
  let s1 := s.help_resizing hf
  match s1.ht2 with
  | some t2 =>
    if (t2.find hf k).isSome then { s1 with ht2 := some (t2.replace hf k v) }
    else if (s1.ht1.find hf k).isSome then { s1 with ht1 := s1.ht1.replace hf k v }
    else (s1.insertNew hf k v).check_load_factor
  | none =>
    if (s1.ht1.find hf k).isSome then { s1 with ht1 := s1.ht1.replace hf k v }
    else (s1.insertNew hf k v).check_load_factor

/-- `ProgressiveHashMap::del`: help the resize, remove from `ht2` then `ht1`,
re-check the load factor when something was removed. -/
def ProgressiveHashMap.del (hf : K → Nat) (s : ProgressiveHashMap K V) (k : K) :
    Bool × ProgressiveHashMap K V :=
  let s1 := s.help_resizing hf
  match s1.ht2 with
  | some t2 =>
    if (t2.find hf k).isSome then
      (true, ({ s1 with ht2 := some (t2.removeKey hf k) }).check_load_factor)
    else if (s1.ht1.find hf k).isSome then
      (true, ({ s1 with ht1 := s1.ht1.removeKey hf k }).check_load_factor)
    else (false, s1)
  | none =>
    if (s1.ht1.find hf k).isSome then
      (true, ({ s1 with ht1 := s1.ht1.removeKey hf k }).check_load_factor)
    else (false, s1)

/-- The non-const `ProgressiveHashMap::lookup`: it first helps the resize
(mutating the map), then searches `ht2` (when present) before `ht1`. -/
def ProgressiveHashMap.lookup (hf : K → Nat) (s : ProgressiveHashMap K V) (k : K) :
    Option V × ProgressiveHashMap K V :=
  let s1 := s.help_resizing hf
  let v :=
    match s1.ht2 with
    | some t2 =>
      match t2.find hf k with
      | some v => some v
      | none => s1.ht1.find hf k
    | none => s1.ht1.find hf k
  (v, s1)

/-- A freshly constructed map (`INITIAL_CAPACITY = 16`, no resize active). -/
def ProgressiveHashMap.emptyMap (K V : Type) : ProgressiveHashMap K V :=
  { ht1 := newHashTable K V 16, ht2 := none, resizing_pos := 0, is_shrinking := false }

/-- All keys stored in one table, chain order inside bucket order. -/
def keysOf (t : HTable K V) : List K := t.buckets.flatten.map Prod.fst

/-- All keys stored anywhere in the map (`ht1` keys then `ht2` keys). -/
def allKeys (s : ProgressiveHashMap K V) : List K :=
  keysOf s.ht1 ++ (match s.ht2 with | none => [] | some t2 => keysOf t2)

/-- Well-formedness of one table: the bucket vector realises `mask + 1`
buckets and every stored entry sits in the bucket its hash selects. -/
def TableWF (hf : K → Nat) (t : HTable K V) : Prop :=
  t.buckets.length = t.mask + 1 ∧
  ∀ i x, x ∈ (t.bucketAt i).map Prod.fst → hf x &&& t.mask = i

/-- The map invariant behind (I4): both tables well formed, no key stored
twice anywhere, and during a resize every `ht1` bucket before the cursor is
already drained. -/
def MapInv (hf : K → Nat) (s : ProgressiveHashMap K V) : Prop :=
  TableWF hf s.ht1 ∧
  (∀ t2, s.ht2 = some t2 → TableWF hf t2) ∧
  (allKeys s).Nodup ∧
  (s.ht2.isSome → ∀ i, i < s.resizing_pos → s.ht1.bucketAt i = [])

/-! ### Connection buffer (`Conn::Buffer` in server.cpp) -/

/-- The sliding-head FIFO byte buffer: backing vector plus head offset. -/
structure Buffer where
  buf : List Nat
  head : Nat
deriving DecidableEq

/-- Unread bytes, the window `data() .. data()+size()`. -/
def Buffer.dataList (b : Buffer) : List Nat := b.buf.drop b.head

/-- `size()`: count of unread bytes. -/
def Buffer.bsize (b : Buffer) : Nat := b.buf.length - b.head

/-- `append`: no-op on empty input, otherwise push at the back. -/
def Buffer.append (b : Buffer) (l : List Nat) : Buffer :=
  match l with
  | [] => b
  | _ => { b with buf := b.buf ++ l }

/-- The compaction step of `consume`: erase the consumed prefix and reset
the head. -/
def Buffer.compact (b : Buffer) : Buffer :=
  { buf := b.buf.drop b.head, head := 0 }

/-- `consume(n)`: slide the head forward (clamped to the vector size) and
compact once the head reaches 4096 bytes and at least half the vector. -/
def Buffer.consume (b : Buffer) (n : Nat) : Buffer :=
  let h := b.head + n
  let h := if b.buf.length < h then b.buf.length else h
  let b' : Buffer := { b with head := h }
  if 4096 ≤ h ∧ b'.buf.length ≤ 2 * h then b'.compact else b'

/-- The empty buffer a fresh connection starts with. -/
def Buffer.emptyBuf : Buffer := { buf := [], head := 0 }

/-- One client-visible buffer operation. -/
inductive BufOp where
  | push (l : List Nat)
  | take (n : Nat)
deriving DecidableEq

/-- Run a sequence of operations on the sliding-head buffer. -/
def runBuffer : List BufOp → Buffer → Buffer
  | [], b => b
  | BufOp.push l :: ops, b => runBuffer ops (b.append l)
  | BufOp.take n :: ops, b => runBuffer ops (b.consume n)

/-- Modelled from the spec: the naive FIFO byte queue the buffer is claimed
to be observationally equivalent to - append at the back, consume erases
from the front. -/
def runQueue : List BufOp → List Nat → List Nat
  | [], q => q
  | BufOp.push l :: ops, q => runQueue ops (q ++ l)
  | BufOp.take n :: ops, q => runQueue ops (q.drop n)

/-! ### Protocol codec (`parse_req` and framing in server.cpp) -/

def MAX_MSG : Nat := 33554432
def MAX_ARGS : Nat := 200000

/-- Read a little-endian `uint32` from the byte stream (`read_u32`). -/
def readU32 : List Nat → Option (Nat × List Nat)
  | b0 :: b1 :: b2 :: b3 :: rest =>
    some (b0 + 256 * b1 + 65536 * b2 + 16777216 * b3, rest)
  | _ => none

/-- Decode bytes into the `std::string` they assign. -/
def bytesToString (l : List Nat) : String := String.mk (l.map Char.ofNat)

/-- Read `n` bytes into a string (`read_str`); fails when fewer remain. -/
def readStr (n : Nat) (l : List Nat) : Option (String × List Nat) :=
  if n ≤ l.length then some (bytesToString (l.take n), l.drop n) else none

/-- The argument loop of `parse_req` (`while (out.size() < nstr)`), with the
number of still-missing arguments as fuel; at loop exit the payload must be
exhausted (`data != end` rejects). -/
def parseLoop : Nat → List Nat → List String → Option (List String)
  | 0, l, acc => if l.isEmpty then some acc else none
  | rem + 1, l, acc =>
    match readU32 l with
    | none => none
    | some (len, l1) =>
      match readStr len l1 with
      | none => none
      | some (str, l2) => parseLoop rem l2 (acc ++ [str])

/-- `parse_req` on the payload of one frame: argument count, then that many
length-prefixed arguments, nothing trailing; rejects `nstr > MAX_ARGS`. -/
def parse_req (payload : List Nat) : Option (List String) :=
  match readU32 payload with
  | none => none
  | some (nstr, rest) => if MAX_ARGS < nstr then none else parseLoop nstr rest []

/-- Little-endian encoding of a `uint32` (the inverse used when framing). -/
def encodeU32 (n : Nat) : List Nat :=
  [n % 256, n / 256 % 256, n / 65536 % 256, n / 16777216 % 256]

/-! ### Server entry and index state (server.cpp globals) -/

/-- `RES_OK` / `RES_ERR` / `RES_NX`. -/
def RES_OK : Nat := 0
def RES_ERR : Nat := 1
def RES_NX : Nat := 2

/-- A framed response: status code and payload bytes (as a string). -/
structure Resp where
  status : Nat
  payload : String
deriving DecidableEq

/-- The stored `Entry` of server.cpp.  The `std::list`/`std::map` iterators
`lru_it`/`lfu_it` are modelled as the numeric identifiers of the index nodes
they designate; instants are `Int` nanoseconds of the steady clock. -/
structure SrvEntry where
  value : String
  ttlStr : String
  created_at : Int
  expires_at : Int
  access_count : Nat
  lru_id : Nat
  lfu_id : Nat
  has_ttl : Bool
deriving DecidableEq

/-- The global cache state: the key-entry map (abstracted to its
association behaviour, which `ProgressiveHashMap` realises: update in
place on an existing key, insert otherwise), the LRU list of nodes, the LFU
groups ordered by ascending frequency, the key-to-group map
`lfu_key_to_freq` (a `std::map` iterator to a group is its frequency), the
ordered TTL pair set, and the fresh-node counter realising iterator
identity. -/
structure Srv where
  data : List (String × SrvEntry)
  lru_list : List (Nat × String)
  lfu_map : List (Nat × List (Nat × String))
  lfu_key_to_freq : List (String × Nat)
  ttl_set : List (Int × String)
  next_id : Nat
deriving DecidableEq

/-- Association search: first binding of the key. -/
def afind {κ α : Type} [DecidableEq κ] : List (κ × α) → κ → Option α
  | [], _ => none
  | (k', a) :: rest, k => if k' = k then some a else afind rest k

/-- Association update-or-insert (insert at the back when absent). -/
def aset {κ α : Type} [DecidableEq κ] : List (κ × α) → κ → α → List (κ × α)
  | [], k, a => [(k, a)]
  | (k', a') :: rest, k, a =>
    if k' = k then (k', a) :: rest else (k', a') :: aset rest k a

/-- Association erase of the first binding of the key. -/
def aerase {κ α : Type} [DecidableEq κ] : List (κ × α) → κ → List (κ × α)
  | [], _ => []
  | (k', a') :: rest, k => if k' = k then rest else (k', a') :: aerase rest k

/-- Erase the list node a stored iterator designates (by node id). -/
def eraseById : List (Nat × String) → Nat → List (Nat × String)
  | [], _ => []
  | n :: rest, i => if n.1 = i then rest else n :: eraseById rest i

/-- Sorted insertion into the `lfu_map` (a `std::map` keyed by frequency),
used only when the frequency group is absent. -/
def ginsert : List (Nat × List (Nat × String)) → Nat → List (Nat × List (Nat × String))
  | [], f => [(f, [])]
  | (f', ns) :: rest, f =>
    if f < f' then (f, []) :: (f', ns) :: rest else (f', ns) :: ginsert rest f

/-- Update the node list of an existing frequency group in place. -/
def gmodify : List (Nat × List (Nat × String)) → Nat →
    (List (Nat × String) → List (Nat × String)) → List (Nat × List (Nat × String))
  | [], _, _ => []
  | (f', ns) :: rest, f, g =>
    if f' = f then (f', g ns) :: rest else (f', ns) :: gmodify rest f g

/-- Ordered insertion into the `std::set` of `(deadline, key)` pairs
(lexicographic, duplicates ignored). -/
def ttlInsert : List (Int × String) → Int × String → List (Int × String)
  | [], p => [p]
  | q :: rest, p =>
    if p.1 < q.1 ∨ (p.1 = q.1 ∧ p.2 < q.2) then p :: q :: rest
    else if p = q then q :: rest
    else q :: ttlInsert rest p

/-- Erase one `(deadline, key)` pair from the TTL set. -/
def ttlErase : List (Int × String) → Int × String → List (Int × String)
  | [], _ => []
  | q :: rest, p => if q = p then rest else q :: ttlErase rest p

/-- `is_expired`: only entries with a TTL expire, strictly after their
deadline. -/
def isExpired (now : Int) (e : SrvEntry) : Bool := e.has_ttl && decide (e.expires_at < now)

/-- Nanoseconds per second of the steady clock. -/
def NSPERSEC : Int := 1000000000

/-- Detach a key's node from its LFU group through `lfu_key_to_freq`, drop
the group when it empties, and forget the key's group binding (the shared
`// Remove from LFU tracking` block).  When the binding is absent the C++
`operator[]` produces a singular iterator whose use is undefined; program
states never reach that case and it is modelled as a no-op. -/
def lfuDetach (k : String) (e : SrvEntry) (s : Srv) : Srv :=
  match afind s.lfu_key_to_freq k with
  | none => s
  | some f =>
    let newNodes := eraseById ((afind s.lfu_map f).getD []) e.lfu_id
    let groups :=
      if newNodes.isEmpty then aerase s.lfu_map f
      else gmodify s.lfu_map f (fun _ => newNodes)
    { s with lfu_map := groups, lfu_key_to_freq := aerase s.lfu_key_to_freq k }

/-- `update_lru`: when the key is live, unlink its node and relink a fresh
node at the head, storing the new handle in the entry. -/
def update_lru (k : String) (s : Srv) : Srv :=
  match afind s.data k with
  | none => s
  | some e =>
    let nid := s.next_id
    { s with lru_list := (nid, k) :: eraseById s.lru_list e.lru_id,
             data := aset s.data k { e with lru_id := nid },
             next_id := nid + 1 }

/-- `update_lfu`: unlink the key's node from its current group (dropping
the group if emptied), bump the access count, and relink a fresh node at the
head of the next group, creating it if absent.  The C++ guard
`entry->access_count >= 0` on a `size_t` always holds and is omitted. -/
def update_lfu (k : String) (s : Srv) : Srv :=
  match afind s.data k with
  | none => s
  | some e =>
    let s1 := lfuDetach k e s
    let cnt := e.access_count + 1
    let groups1 :=
      match afind s1.lfu_map cnt with
      | some _ => s1.lfu_map
      | none => ginsert s1.lfu_map cnt
    let nid := s1.next_id
    { s1 with lfu_map := gmodify groups1 cnt (fun ns => (nid, k) :: ns),
              lfu_key_to_freq := aset s1.lfu_key_to_freq k cnt,
              data := aset s1.data k { e with access_count := cnt, lfu_id := nid },
              next_id := nid + 1 }

/-- The body of the expiration sweep for one due key: when the key is live,
unlink its LRU node and LFU node and delete it from the map - without
checking the entry's own TTL flag or deadline. -/
def cleanupOne (k : String) (s : Srv) : Srv :=
  match afind s.data k with
  | none => s
  | some e =>
    let s1 := { s with lru_list := eraseById s.lru_list e.lru_id }
    let s2 := lfuDetach k e s1
    { s2 with data := aerase s2.data k }

/-- The sweep loop of `cleanup_expired`: walk the ordered TTL pairs from the
front while the deadline is due (`first <= now`), removing each named key and
erasing the visited pair. -/
def sweepGo (now : Int) : List (Int × String) → Srv → List (Int × String) × Srv
  | [], s => ([], s)
  | (d, k) :: rest, s =>
    if d ≤ now then sweepGo now rest (cleanupOne k s)
    else ((d, k) :: rest, s)

/-- `cleanup_expired` at instant `now`. -/
def cleanup_expired (now : Int) (s : Srv) : Srv :=
  let r := sweepGo now s.ttl_set s
  { r.2 with ttl_set := r.1 }

/-- Modelled `std::stoi` for the TTL argument: optional sign then a leading
run of decimal digits; an argument without a leading digit throws
`std::invalid_argument`, which the server does not catch (`none`). -/
def stoiParse (str : String) : Option Int :=
  let digitsOf := fun (l : List Char) => l.takeWhile Char.isDigit
  let valOf : List Char → Nat := fun l => l.foldl (fun a c => a * 10 + (c.toNat - 48)) 0
  match str.toList with
  | '-' :: rest =>
    if (digitsOf rest).isEmpty then none else some (-(valOf (digitsOf rest) : Int))
  | l =>
    if (digitsOf l).isEmpty then none else some ((valOf (digitsOf l) : Int))

/-- The `set k v` branch effect: build a TTL-less entry with a zero access
count, prepend fresh LRU and LFU group-0 nodes (creating group 0 when
absent), bind the key to group 0, and store the entry - without detaching
any index nodes a previous entry of the key may own. -/
def setPlain (k v : String) (now : Int) (s : Srv) : Srv :=
  let nid := s.next_id
  let groups :=
    match afind s.lfu_map 0 with
    | some _ => s.lfu_map
    | none => ginsert s.lfu_map 0
  let e : SrvEntry :=
    { value := v, ttlStr := "", created_at := now, expires_at := 0,
      access_count := 0, lru_id := nid, lfu_id := nid + 1, has_ttl := false }
  { s with data := aset s.data k e,
           lru_list := (nid, k) :: s.lru_list,
           lfu_map := gmodify groups 0 (fun ns => (nid + 1, k) :: ns),
           lfu_key_to_freq := aset s.lfu_key_to_freq k 0,
           next_id := nid + 2 }

/-- The `set ex k v secs` branch effect: like `setPlain` but with
`expires_at = now + secs` seconds and the new `(deadline, key)` pair added
to the TTL set - again without removing a previous entry's pair. -/
def setEx (k v : String) (secs : Int) (now : Int) (s : Srv) : Srv :=
  let expires := now + secs * NSPERSEC
  let nid := s.next_id
  let groups :=
    match afind s.lfu_map 0 with
    | some _ => s.lfu_map
    | none => ginsert s.lfu_map 0
  let e : SrvEntry :=
    { value := v, ttlStr := "", created_at := now, expires_at := expires,
      access_count := 0, lru_id := nid, lfu_id := nid + 1, has_ttl := true }
  { s with data := aset s.data k e,
           lru_list := (nid, k) :: s.lru_list,
           lfu_map := gmodify groups 0 (fun ns => (nid + 1, k) :: ns),
           lfu_key_to_freq := aset s.lfu_key_to_freq k 0,
           ttl_set := ttlInsert s.ttl_set (expires, k),
           next_id := nid + 2 }

/-- The full removal transaction shared by `del` and both evictions: unlink
the LRU node, detach from the LFU index, erase the `(deadline, key)` pair
when the entry has a TTL, and delete from the map. -/
def removeLive (k : String) (e : SrvEntry) (s : Srv) : Srv :=
  let s1 := { s with lru_list := eraseById s.lru_list e.lru_id }
  let s2 := lfuDetach k e s1
  let s3 :=
    if e.has_ttl then { s2 with ttl_set := ttlErase s2.ttl_set (e.expires_at, k) }
    else s2
  { s3 with data := aerase s3.data k }

/-- `do_request`: run the expiration sweep, then dispatch on the argument
vector exactly as the `else if` chain does.  `none` models the uncaught
`std::stoi` exception of a malformed `set ex` seconds argument. -/
def do_request (cmd : List String) (now : Int) (s : Srv) : Option (Resp × Srv) :=
  let s0 := cleanup_expired now s
  if cmd.length = 2 ∧ cmd.getD 0 "" = "get" then
    let k := cmd.getD 1 ""
    match afind s0.data k with
    | none => some ({ status := RES_NX, payload := "" }, s0)
    | some e =>
      if isExpired now e then some ({ status := RES_NX, payload := "" }, s0)
      else some ({ status := RES_OK, payload := e.value }, update_lfu k (update_lru k s0))
  else if cmd.length = 3 ∧ cmd.getD 0 "" = "set" then
    some ({ status := RES_OK, payload := "" }, setPlain (cmd.getD 1 "") (cmd.getD 2 "") now s0)
  else if cmd.length = 5 ∧ cmd.getD 0 "" = "set" ∧ cmd.getD 1 "" = "ex" then
    match stoiParse (cmd.getD 4 "") with
    | none => none
    | some secs =>
      some ({ status := RES_OK, payload := "" }, setEx (cmd.getD 2 "") (cmd.getD 3 "") secs now s0)
  else if cmd.length = 2 ∧ cmd.getD 0 "" = "del" then
    let k := cmd.getD 1 ""
    match afind s0.data k with
    | none => some ({ status := RES_OK, payload := "" }, s0)
    | some e => some ({ status := RES_OK, payload := "" }, removeLive k e s0)
  else if cmd.length = 2 ∧ cmd.getD 0 "" = "ttl" then
    let k := cmd.getD 1 ""
    match afind s0.data k with
    | none => some ({ status := RES_NX, payload := "" }, s0)
    | some e =>
      if isExpired now e then some ({ status := RES_NX, payload := "" }, s0)
      else if e.has_ttl = false then some ({ status := RES_ERR, payload := "" }, s0)
      else
        let remaining := Int.tdiv (e.expires_at - now) NSPERSEC
        let str := toString remaining
        some ({ status := RES_OK, payload := str },
              { s0 with data := aset s0.data k { e with ttlStr := str } })
  else if cmd.length = 1 ∧ cmd.getD 0 "" = "lru_evict" then
    match s0.lru_list.getLast? with
    | none => some ({ status := RES_ERR, payload := "" }, s0)
    | some nd =>
      match afind s0.data nd.2 with
      | none => some ({ status := RES_OK, payload := "" }, s0)
      | some e => some ({ status := RES_OK, payload := "" }, removeLive nd.2 e s0)
  else if cmd.length = 1 ∧ cmd.getD 0 "" = "lfu_evict" then
    match s0.lfu_map with
    | [] => some ({ status := RES_ERR, payload := "" }, s0)
    | g :: _ =>
      match g.2.getLast? with
      | none => some ({ status := RES_OK, payload := "" }, s0)
      | some nd =>
        match afind s0.data nd.2 with
        | none => some ({ status := RES_OK, payload := "" }, s0)
        | some e => some ({ status := RES_OK, payload := "" }, removeLive nd.2 e s0)
  else
    some ({ status := RES_ERR, payload := "" }, s0)

/-- The empty cache the process starts with. -/
def srvEmpty : Srv :=
  { data := [], lru_list := [], lfu_map := [], lfu_key_to_freq := [],
    ttl_set := [], next_id := 0 }

/-! ### Connection framing (`try_one_request` in server.cpp) -/

/-- Per-connection state: the three intents and the two FIFO buffers. -/
structure ConnSt where
  want_read : Bool
  want_write : Bool
  want_close : Bool
  incoming : Buffer
  outgoing : Buffer
deriving DecidableEq

/-- `make_response`: 4-byte length (status plus payload), status word,
payload bytes. -/
def make_response (r : Resp) : List Nat :=
  encodeU32 (4 + r.payload.length) ++ encodeU32 r.status ++ r.payload.toList.map Char.toNat

/-- `try_one_request`: wait for the 4-byte prefix, close on an over-long
frame, wait for the full frame, close on a parse failure, otherwise execute
the command, frame the response into `outgoing` and consume the frame.
`none` propagates the uncaught-exception case of `do_request`. -/
def try_one_request (now : Int) (s : Srv) (c : ConnSt) : Option (Bool × ConnSt × Srv) :=
  if c.incoming.bsize < 4 then some (false, c, s)
  else
    let len := ((readU32 c.incoming.dataList).map Prod.fst).getD 0
    if MAX_MSG < len then some (false, { c with want_close := true }, s)
    else if c.incoming.bsize < 4 + len then some (false, c, s)
    else
      let request := (c.incoming.dataList.drop 4).take len
      match parse_req request with
      | none => some (false, { c with want_close := true }, s)
      | some cmd =>
        match do_request cmd now s with
        | none => none
        | some (resp, s') =>
          some (true, { c with incoming := c.incoming.consume (4 + len),
                               outgoing := c.outgoing.append (make_response resp) }, s')

/-- The ordering invariant `std::set` maintains on the TTL pairs:
strictly ascending in the lexicographic deadline-then-key order. -/
def ttlSorted (l : List (Int × String)) : Prop :=
  l.Pairwise (fun p q => p.1 < q.1 ∨ (p.1 = q.1 ∧ p.2 < q.2))

/-! ### Concrete instances used by witnesses and counterexamples -/

/-- Final state of `set k v; set k v` from the empty cache. -/
def c1Trace : Option Srv :=
  (do_request ["set", "k", "v"] 0 srvEmpty).bind fun p =>
    (do_request ["set", "k", "v"] 0 p.2).map fun q => q.2

/-- State after `set k v; get k` from the empty cache. -/
def c2Mid : Option Srv :=
  (do_request ["set", "k", "v"] 0 srvEmpty).bind fun p =>
    (do_request ["get", "k"] 0 p.2).map fun q => q.2

/-- State after `set k v; get k; set k w` from the empty cache. -/
def c2Trace : Option Srv :=
  c2Mid.bind fun s => (do_request ["set", "k", "w"] 0 s).map fun q => q.2

/-- State after `set ex k v 5; set k w` from the empty cache at instant 0. -/
def c3Trace : Option Srv :=
  (do_request ["set", "ex", "k", "v", "5"] 0 srvEmpty).bind fun p =>
    (do_request ["set", "k", "w"] 0 p.2).map fun q => q.2

/-- A mid-resize map (capacity 2 growing to 4, cursor at 0) holding key 0. -/
def pmC5 : ProgressiveHashMap Nat String :=
  { ht1 := { buckets := [[(0, "x")], []], size := 1, mask := 1 },
    ht2 := some { buckets := [[], [], [], []], size := 0, mask := 3 },
    resizing_pos := 0, is_shrinking := false }

/-- A cache holding one TTL entry for key `"k"` expiring at 2.5 seconds. -/
def srvTtl : Srv :=
  { data := [("k", { value := "v", ttlStr := "", created_at := 0,
                     expires_at := 2500000000, access_count := 0,
                     lru_id := 0, lfu_id := 1, has_ttl := true })],
    lru_list := [(0, "k")], lfu_map := [(0, [(1, "k")])],
    lfu_key_to_freq := [("k", 0)], ttl_set := [(2500000000, "k")], next_id := 2 }

/-- A fresh connection whose incoming buffer holds the given bytes. -/
def connWith (l : List Nat) : ConnSt :=
  { want_read := true, want_write := false, want_close := false,
    incoming := { buf := l, head := 0 }, outgoing := Buffer.emptyBuf }

/-- The bytes of the verb `get`. -/
def gBytes : List Nat := [103, 101, 116]

/-- A 33554417-byte argument filling a maximal frame. -/
def c8BigChunk : List Nat := List.replicate 33554417 97

/-- A well-formed payload of exactly `MAX_MSG` bytes: `get` plus one huge
key. -/
def c8Payload : List Nat :=
  encodeU32 2 ++ (encodeU32 gBytes.length ++ (gBytes ++ (encodeU32 c8BigChunk.length ++ c8BigChunk)))

/-- A complete frame whose length prefix is exactly `MAX_MSG`. -/
def c8Frame : List Nat := encodeU32 33554432 ++ c8Payload

/-- A well-formed payload declaring exactly `MAX_ARGS` (empty) arguments. -/
def c8dPayload : List Nat := encodeU32 200000 ++ List.flatten (List.replicate 200000 (encodeU32 0))

/-- A complete frame around `c8dPayload`. -/
def c8dFrame : List Nat := encodeU32 800004 ++ c8dPayload

/-! ### Theorems -/

/-- C1: the claim that after every completed command the map size, the
recency-list size and the total frequency-group size agree fails on the
code: `set k v; set k v` from the empty cache leaves one map entry but two
recency nodes and two frequency-group nodes, because the bare `set` branch
never detaches the old entry's index nodes. -/
theorem claim_C1_sizes_diverge :
    c1Trace.map (fun s =>
      (s.data.length, s.lru_list.length, (s.lfu_map.map (fun g => g.2.length)).sum)) =
    some (1, 2, 2) := by decide

/-- C2: the claim that a bare `set` on an existing key preserves the prior
`access_count` (and frequency group) fails on the code: after
`set k v; get k` the count is 1, but a further `set k w` rebuilds the entry
with count 0 and rebinds the key to frequency group 0. -/
theorem claim_C2_count_reset :
    (c2Mid.map fun s => (afind s.data "k").map (fun e => e.access_count)) = some (some 1) ∧
    (c2Trace.map fun s =>
      ((afind s.data "k").map (fun e => e.access_count), afind s.lfu_key_to_freq "k")) =
    some (some 0, some 0) := by
  constructor <;> decide

/-- C3: the claim that overwriting a key whose entry had a TTL removes the
old `(deadline, key)` pair fails on the code: after
`set ex k v 5; set k w` at instant 0 the live entry has `has_ttl = false`
yet the pair `(5e9, k)` still sits in the Expiration Index. -/
theorem claim_C3_stale_ttl_pair :
    c3Trace.map (fun s => ((afind s.data "k").map (fun e => e.has_ttl), s.ttl_set)) =
    some (some false, [(5000000000, "k")]) := by decide

/-- C9: `del k; del k` gives the second `del` the same status as a `del` on
a never-present key, because the `del` branch answers `RES_OK` whether or
not the key is found. -/
theorem claim_C9_del_idempotent_status :
    ∀ (s : Srv) (now now2 : Int) (k : String) (r : Resp) (s1 : Srv),
      do_request ["del", k] now s = some (r, s1) →
      ((do_request ["del", k] now2 s1).map (fun p => p.1.status) = some RES_OK ∧
       ∀ (t : Srv) (now3 : Int),
         (do_request ["del", k] now3 t).map (fun p => p.1.status) = some RES_OK) := by
  have hdel : ∀ (t : Srv) (now3 : Int) (k : String),
      (do_request ["del", k] now3 t).map (fun p => p.1.status) = some RES_OK := by
    intro t now3 k
    simp only [do_request]
    norm_num
    cases afind (cleanup_expired now3 t).data k <;> simp [RES_OK]
  intro s now now2 k r s1 _
  exact ⟨hdel s1 now2 k, fun t now3 => hdel t now3 k⟩

/-- Witness for C9 at a concrete run: delete `"k"` twice starting from the
empty cache. -/
theorem claim_C9_witness :
    (do_request ["del", "k"] 0 (cleanup_expired 0 srvEmpty)).map (fun p => p.1.status) =
    some RES_OK :=
  (claim_C9_del_idempotent_status srvEmpty 0 0 "k" { status := RES_OK, payload := "" }
    (cleanup_expired 0 srvEmpty) (by decide)).1

theorem Buffer.compact_dataList (b : Buffer) : b.compact.dataList = b.dataList := by
  simp [Buffer.compact, Buffer.dataList]

theorem Buffer.consume_dataList (b : Buffer) (n : Nat) (hb : b.head ≤ b.buf.length) :
    (b.consume n).dataList = b.dataList.drop n := by
  unfold Buffer.consume
  have hdrop : ∀ m, m = b.head + n ∨ m = b.buf.length ∧ b.buf.length ≤ b.head + n →
      b.buf.drop m = b.dataList.drop n := by
    intro m hm
    have : b.buf.drop (b.head + n) = b.dataList.drop n := by
      simp [Buffer.dataList, List.drop_drop, Nat.add_comm]
    rcases hm with h | ⟨h1, h2⟩
    · rw [h, this]
    · rw [h1]
      rw [List.drop_eq_nil_of_le (le_refl _), Eq.symm this, List.drop_eq_nil_of_le h2]
  by_cases hlt : b.buf.length < b.head + n
  · simp only [if_pos hlt]
    by_cases hc : 4096 ≤ b.buf.length ∧ b.buf.length ≤ 2 * b.buf.length
    · simp only [if_pos hc, Buffer.compact_dataList]
      exact hdrop b.buf.length (Or.inr ⟨rfl, Nat.le_of_lt hlt⟩)
    · simp only [if_neg hc]
      exact hdrop b.buf.length (Or.inr ⟨rfl, Nat.le_of_lt hlt⟩)
  · simp only [if_neg hlt]
    by_cases hc : 4096 ≤ b.head + n ∧ b.buf.length ≤ 2 * (b.head + n)
    · simp only [if_pos hc, Buffer.compact_dataList]
      exact hdrop (b.head + n) (Or.inl rfl)
    · simp only [if_neg hc]
      exact hdrop (b.head + n) (Or.inl rfl)

theorem Buffer.consume_head_le (b : Buffer) (n : Nat) (hb : b.head ≤ b.buf.length) :
    (b.consume n).head ≤ (b.consume n).buf.length := by
  unfold Buffer.consume
  by_cases hlt : b.buf.length < b.head + n <;>
    simp only [if_pos, if_neg, hlt, ite_true, ite_false] <;>
    split <;> simp [Buffer.compact] <;> omega

theorem Buffer.append_dataList (b : Buffer) (l : List Nat) (hb : b.head ≤ b.buf.length) :
    (b.append l).dataList = b.dataList ++ l := by
  cases l with
  | nil => simp [Buffer.append]
  | cons x xs =>
    simp only [Buffer.append, Buffer.dataList]
    exact List.drop_append_of_le_length hb

theorem Buffer.append_head_le (b : Buffer) (l : List Nat) (hb : b.head ≤ b.buf.length) :
    (b.append l).head ≤ (b.append l).buf.length := by
  cases l with
  | nil => exact hb
  | cons x xs =>
    simp only [Buffer.append, List.length_append]
    omega

theorem runBuffer_refines (ops : List BufOp) (b : Buffer) (q : List Nat)
    (hb : b.head ≤ b.buf.length) (heq : b.dataList = q) :
    (runBuffer ops b).dataList = runQueue ops q := by
  induction ops generalizing b q with
  | nil => simpa [runBuffer, runQueue]
  | cons op rest ih =>
    cases op with
    | push l =>
      exact ih (b.append l) (q ++ l) (Buffer.append_head_le b l hb)
        (by rw [Buffer.append_dataList b l hb, heq])
    | take n =>
      exact ih (b.consume n) (q.drop n) (Buffer.consume_head_le b n hb)
        (by rw [Buffer.consume_dataList b n hb, heq])

/-- C10: the sliding-head buffer is observationally a FIFO byte queue: any
operation sequence from the empty buffer exposes through `data()`/`size()`
exactly the bytes of the naive front-erasing queue; `consume n` drops
exactly the first `min n size` unread bytes (leaving `size - n`); and the
compaction step never changes the unread byte sequence. -/
theorem claim_C10_buffer_fifo :
    (∀ ops : List BufOp, (runBuffer ops Buffer.emptyBuf).dataList = runQueue ops []) ∧
    (∀ (b : Buffer) (n : Nat), b.head ≤ b.buf.length →
      (b.consume n).dataList = b.dataList.drop n ∧ (b.consume n).bsize = b.bsize - n) ∧
    (∀ b : Buffer, b.compact.dataList = b.dataList) := by
  refine ⟨fun ops => runBuffer_refines ops Buffer.emptyBuf [] (by simp [Buffer.emptyBuf]) rfl,
    fun b n hb => ⟨Buffer.consume_dataList b n hb, ?_⟩, Buffer.compact_dataList⟩
  have h1 := Buffer.consume_dataList b n hb
  have h2 := Buffer.consume_head_le b n hb
  have hlen : (b.consume n).bsize = (b.consume n).dataList.length := by
    simp [Buffer.bsize, Buffer.dataList]
  have hlen2 : b.bsize = b.dataList.length := by
    simp [Buffer.bsize, Buffer.dataList]
  rw [hlen, hlen2, h1, List.length_drop]

/-- Witness for C10 on a concrete run: push five bytes, consume two, push
one, consume one; and a concrete clamped consume. -/
theorem claim_C10_witness :
    ((runBuffer [BufOp.push [1, 2, 3, 4, 5], BufOp.take 2, BufOp.push [6], BufOp.take 1]
        Buffer.emptyBuf).dataList =
      runQueue [BufOp.push [1, 2, 3, 4, 5], BufOp.take 2, BufOp.push [6], BufOp.take 1] []) ∧
    ((Buffer.consume { buf := [7, 8, 9], head := 1 } 5).dataList =
      (Buffer.dataList { buf := [7, 8, 9], head := 1 }).drop 5) :=
  ⟨claim_C10_buffer_fifo.1 _,
   (claim_C10_buffer_fifo.2.1 { buf := [7, 8, 9], head := 1 } 5 (by decide)).1⟩

/-- C7: after the sweep, `ttl k` answers `RES_NX` on an absent key and on an
expired one, `RES_ERR` on a key stored without TTL, and on a live TTL key
`RES_OK` with the ASCII decimal of the remaining whole seconds truncated
toward zero. -/
theorem claim_C7_ttl_statuses :
    ∀ (s : Srv) (now : Int) (k : String),
      (afind (cleanup_expired now s).data k = none →
        (do_request ["ttl", k] now s).map (fun p => p.1) =
          some { status := RES_NX, payload := "" }) ∧
      (∀ e, afind (cleanup_expired now s).data k = some e → isExpired now e = true →
        (do_request ["ttl", k] now s).map (fun p => p.1) =
          some { status := RES_NX, payload := "" }) ∧
      (∀ e, afind (cleanup_expired now s).data k = some e → isExpired now e = false →
        e.has_ttl = false →
        (do_request ["ttl", k] now s).map (fun p => p.1) =
          some { status := RES_ERR, payload := "" }) ∧
      (∀ e, afind (cleanup_expired now s).data k = some e → isExpired now e = false →
        e.has_ttl = true →
        (do_request ["ttl", k] now s).map (fun p => p.1) =
          some { status := RES_OK,
                 payload := Nat.repr ((e.expires_at - now).toNat / 1000000000) }) := by
  intro s now k
  refine ⟨?_, ?_, ?_, ?_⟩
  · intro h
    simp only [do_request]
    norm_num
    simp [h]
  · intro e h hex
    simp only [do_request]
    norm_num
    simp [h, hex]
  · intro e h hex htl
    simp only [do_request]
    norm_num
    simp [h, hex, htl]
  · intro e h hex htl
    have hnn : (0 : Int) ≤ e.expires_at - now := by
      have : ¬ e.expires_at < now := by
        intro hc
        simp [isExpired, htl, hc] at hex
      omega
    have hdiv : Int.tdiv (e.expires_at - now) NSPERSEC =
        Int.ofNat ((e.expires_at - now).toNat / 1000000000) := by
      have h1 : e.expires_at - now = Int.ofNat (e.expires_at - now).toNat :=
        (Int.toNat_of_nonneg hnn).symm
      rw [NSPERSEC]
      rw [h1]
      rfl
    have hstr : toString (Int.tdiv (e.expires_at - now) NSPERSEC) =
        Nat.repr ((e.expires_at - now).toNat / 1000000000) := by
      rw [hdiv]; rfl
    simp only [do_request]
    norm_num
    simp [h, hex, htl, hstr]

/-- Witness for C7: `ttl k` at 0 seconds on a key expiring at 2.5 seconds
answers `RES_OK` with payload `"2"`, and `RES_NX` on an absent key. -/
theorem claim_C7_witness :
    ((do_request ["ttl", "k"] 0 srvTtl).map (fun p => p.1) =
      some { status := RES_OK, payload := Nat.repr (2500000000 / 1000000000) }) ∧
    ((do_request ["ttl", "zz"] 0 srvTtl).map (fun p => p.1) =
      some { status := RES_NX, payload := "" }) :=
  ⟨(claim_C7_ttl_statuses srvTtl 0 "k").2.2.2
      { value := "v", ttlStr := "", created_at := 0, expires_at := 2500000000,
        access_count := 0, lru_id := 0, lfu_id := 1, has_ttl := true }
      (by decide) (by decide) (by decide),
   (claim_C7_ttl_statuses srvTtl 0 "zz").1 (by decide)⟩

theorem helpFrom_le {K V : Type} [DecidableEq K] (hf : K → Nat) (fuel : Nat)
    (t1 t2 : HTable K V) (pos : Nat) : pos ≤ (helpFrom hf fuel t1 t2 pos).2.2 := by
  induction fuel generalizing pos with
  | zero => exact Nat.le_refl pos
  | succ fuel ih =>
    simp only [helpFrom]
    split
    · split
      · exact Nat.le_trans (Nat.le_succ pos) (ih (pos + 1))
      · exact Nat.le_succ pos
    · exact Nat.le_refl pos

theorem helpFrom_progress {K V : Type} [DecidableEq K] (hf : K → Nat) (fuel : Nat)
    (t1 t2 : HTable K V) (pos : Nat) (hf1 : 0 < fuel) (hp : pos < t1.buckets.length) :
    pos < (helpFrom hf fuel t1 t2 pos).2.2 := by
  cases fuel with
  | zero => omega
  | succ fuel =>
    simp only [helpFrom, if_pos hp]
    split
    · exact Nat.lt_of_lt_of_le (Nat.lt_succ_self pos) (helpFrom_le hf fuel t1 t2 (pos + 1))
    · exact Nat.lt_succ_self pos

/-- C5 (corrected): a `get` does perform resize migration work - the
non-const `lookup` runs the same `help_resizing` step as the mutating
operations, so on any map with an active resize a single lookup either
completes the resize outright or strictly advances the resize cursor;
read-only workloads therefore do drive a pending resize to completion. -/
theorem claim_C5_lookup_migrates {K V : Type} [DecidableEq K] (hf : K → Nat)
    (s : ProgressiveHashMap K V) (k : K) (h : s.ht2.isSome = true) :
    (s.lookup hf k).2.ht2 = none ∨ s.resizing_pos < (s.lookup hf k).2.resizing_pos := by
  obtain ⟨t2, ht⟩ := Option.isSome_iff_exists.mp h
  have hst : (s.lookup hf k).2 = s.help_resizing hf := rfl
  rw [hst]
  unfold ProgressiveHashMap.help_resizing
  rw [ht]
  by_cases hend :
      (helpFrom hf (s.ht1.buckets.length - s.resizing_pos) s.ht1 t2 s.resizing_pos).1.buckets.length ≤
      (helpFrom hf (s.ht1.buckets.length - s.resizing_pos) s.ht1 t2 s.resizing_pos).2.2
  · simp only [hend, if_pos]
    exact Or.inl trivial
  · simp only [hend, if_neg, not_false_iff]
    by_cases hp : s.resizing_pos < s.ht1.buckets.length
    · exact Or.inr (helpFrom_progress hf _ s.ht1 t2 s.resizing_pos (by omega) hp)
    · exfalso
      have hz : s.ht1.buckets.length - s.resizing_pos = 0 := by omega
      rw [hz] at hend
      exact hend (by simpa [helpFrom] using Nat.le_of_not_lt hp)

/-- Witness for C5 (corrected) on the concrete mid-resize map `pmC5`. -/
theorem claim_C5_witness :
    (ProgressiveHashMap.lookup id pmC5 5).2.ht2 = none ∨
    pmC5.resizing_pos < (ProgressiveHashMap.lookup id pmC5 5).2.resizing_pos :=
  claim_C5_lookup_migrates id pmC5 5 (by decide)

/-- C5 counterexample: on the mid-resize map `pmC5` a single `lookup` moves
the resize cursor from 0 to 1 and changes the contents of `ht1`, refuting
the claim that a lookup leaves the cursor and the tables unchanged. -/
theorem claim_C5_counterexample :
    pmC5.resizing_pos = 0 ∧
    (ProgressiveHashMap.lookup id pmC5 5).2.resizing_pos = 1 ∧
    (ProgressiveHashMap.lookup id pmC5 5).2.ht1.buckets ≠ pmC5.ht1.buckets := by
  refine ⟨rfl, by decide, by decide⟩

theorem readU32_encode (n : Nat) (rest : List Nat) (h : n < 4294967296) :
    readU32 (encodeU32 n ++ rest) = some (n, rest) := by
  simp only [encodeU32, List.cons_append, List.nil_append, readU32, Option.some.injEq,
    Prod.mk.injEq, and_true]
  omega

theorem readStr_exact' (l rest : List Nat) :
    readStr l.length (l ++ rest) = some (bytesToString l, rest) := by
  simp [readStr, List.take_left, List.drop_left]

theorem readStr_all (l : List Nat) :
    readStr l.length l = some (bytesToString l, []) := by
  simp [readStr, List.take_length, List.drop_length]

theorem parse_req_two_args (a b : List Nat) (ha : a.length < 4294967296)
    (hb : b.length < 4294967296) :
    parse_req (encodeU32 2 ++ (encodeU32 a.length ++ (a ++ (encodeU32 b.length ++ b)))) =
    some [bytesToString a, bytesToString b] := by
  unfold parse_req
  rw [readU32_encode 2 _ (by norm_num)]
  simp only [MAX_ARGS]
  rw [if_neg (by norm_num)]
  unfold parseLoop
  rw [readU32_encode _ _ ha]
  dsimp only
  rw [readStr_exact' a _]
  dsimp only
  unfold parseLoop
  rw [readU32_encode _ _ hb]
  dsimp only
  rw [readStr_all b]
  dsimp only
  simp [parseLoop]

theorem parseLoop_empties (n : Nat) (acc : List String) :
    parseLoop n (List.flatten (List.replicate n (encodeU32 0))) acc =
    some (acc ++ List.replicate n "") := by
  induction n generalizing acc with
  | zero => simp [parseLoop]
  | succ n ih =>
    rw [List.replicate_succ, List.flatten_cons]
    unfold parseLoop
    rw [readU32_encode 0 _ (by norm_num)]
    dsimp only
    have hz : readStr 0 (List.flatten (List.replicate n (encodeU32 0))) =
        some ("", List.flatten (List.replicate n (encodeU32 0))) := by
      simp [readStr, bytesToString]
    rw [hz]
    dsimp only
    rw [ih]
    rw [List.append_assoc, List.singleton_append, ← List.replicate_succ]

theorem parse_req_nstr_reject (payload : List Nat) (nstr : Nat) (rest : List Nat)
    (h : readU32 payload = some (nstr, rest)) (hn : MAX_ARGS < nstr) :
    parse_req payload = none := by
  unfold parse_req
  rw [h]
  dsimp only
  rw [if_pos hn]

theorem try_one_processed (now : Int) (s : Srv) (c : ConnSt) (len : Nat)
    (cmd : List String) (r : Resp) (s' : Srv)
    (hsz : 4 ≤ c.incoming.bsize)
    (hlen : ((readU32 c.incoming.dataList).map Prod.fst).getD 0 = len)
    (hmax : len ≤ MAX_MSG)
    (hfull : 4 + len ≤ c.incoming.bsize)
    (hparse : parse_req ((c.incoming.dataList.drop 4).take len) = some cmd)
    (hdo : do_request cmd now s = some (r, s')) :
    try_one_request now s c =
    some (true, { c with incoming := c.incoming.consume (4 + len),
                         outgoing := c.outgoing.append (make_response r) }, s') := by
  simp only [try_one_request]
  rw [if_neg (by omega), hlen, if_neg (by omega), if_neg (by omega)]
  rw [hparse]
  dsimp only
  rw [hdo]

/-- C8: a frame whose length prefix exceeds `MAX_MSG`, or whose payload
declares more than `MAX_ARGS` arguments, marks the connection for close with
no command executed (cache and outgoing buffer unchanged); a complete frame
of exactly `MAX_MSG` payload bytes, and one declaring exactly `MAX_ARGS`
arguments, are parsed and their command executed. -/
theorem claim_C8_frame_limits :
    (∀ (now : Int) (s : Srv) (c : ConnSt),
      4 ≤ c.incoming.bsize →
      MAX_MSG < ((readU32 c.incoming.dataList).map Prod.fst).getD 0 →
      try_one_request now s c = some (false, { c with want_close := true }, s)) ∧
    (∀ (payload : List Nat) (nstr : Nat) (rest : List Nat),
      readU32 payload = some (nstr, rest) → MAX_ARGS < nstr → parse_req payload = none) ∧
    (∀ (now : Int) (s : Srv) (c : ConnSt) (len : Nat),
      4 ≤ c.incoming.bsize →
      ((readU32 c.incoming.dataList).map Prod.fst).getD 0 = len →
      len ≤ MAX_MSG → 4 + len ≤ c.incoming.bsize →
      parse_req ((c.incoming.dataList.drop 4).take len) = none →
      try_one_request now s c = some (false, { c with want_close := true }, s)) ∧
    (∀ (now : Int) (s : Srv) (c : ConnSt) (cmd : List String) (r : Resp) (s' : Srv),
      4 ≤ c.incoming.bsize →
      ((readU32 c.incoming.dataList).map Prod.fst).getD 0 = MAX_MSG →
      4 + MAX_MSG ≤ c.incoming.bsize →
      parse_req ((c.incoming.dataList.drop 4).take MAX_MSG) = some cmd →
      do_request cmd now s = some (r, s') →
      try_one_request now s c =
      some (true, { c with incoming := c.incoming.consume (4 + MAX_MSG),
                           outgoing := c.outgoing.append (make_response r) }, s')) ∧
    (∀ (now : Int) (s : Srv) (c : ConnSt) (len : Nat) (rest : List Nat)
       (cmd : List String) (r : Resp) (s' : Srv),
      4 ≤ c.incoming.bsize →
      ((readU32 c.incoming.dataList).map Prod.fst).getD 0 = len →
      len ≤ MAX_MSG → 4 + len ≤ c.incoming.bsize →
      readU32 ((c.incoming.dataList.drop 4).take len) = some (MAX_ARGS, rest) →
      parse_req ((c.incoming.dataList.drop 4).take len) = some cmd →
      do_request cmd now s = some (r, s') →
      try_one_request now s c =
      some (true, { c with incoming := c.incoming.consume (4 + len),
                           outgoing := c.outgoing.append (make_response r) }, s')) := by
  refine ⟨?_, parse_req_nstr_reject, ?_, ?_, ?_⟩
  · intro now s c hsz hbig
    simp only [try_one_request]
    rw [if_neg (by omega), if_pos hbig]
  · intro now s c len hsz hlen hmax hfull hparse
    simp only [try_one_request]
    rw [if_neg (by omega), hlen, if_neg (by omega), if_neg (by omega)]
    rw [hparse]
  · intro now s c cmd r s' hsz hlen hfull hparse hdo
    exact try_one_processed now s c MAX_MSG cmd r s' hsz hlen (le_refl _) hfull hparse hdo
  · intro now s c len rest cmd r s' hsz hlen hmax hfull _ hparse hdo
    exact try_one_processed now s c len cmd r s' hsz hlen hmax hfull hparse hdo

theorem cleanup_empty (now : Int) : cleanup_expired now srvEmpty = srvEmpty := rfl

theorem do_request_get_absent (k : String) (now : Int) (s : Srv)
    (h : afind (cleanup_expired now s).data k = none) :
    do_request ["get", k] now s = some ({ status := RES_NX, payload := "" },
      cleanup_expired now s) := by
  simp only [do_request]
  norm_num
  simp [h]

theorem do_request_unknown_arity (cmd : List String) (now : Int) (s : Srv)
    (h1 : cmd.length ≠ 1) (h2 : cmd.length ≠ 2) (h3 : cmd.length ≠ 3)
    (h5 : cmd.length ≠ 5) :
    do_request cmd now s = some ({ status := RES_ERR, payload := "" },
      cleanup_expired now s) := by
  simp only [do_request]
  simp [h1, h2, h3, h5]

theorem connWith_dataList (l : List Nat) : (connWith l).incoming.dataList = l := rfl

theorem connWith_bsize (l : List Nat) : (connWith l).incoming.bsize = l.length := by
  show l.length - 0 = l.length
  omega

theorem encodeU32_len (n : Nat) : (encodeU32 n).length = 4 := rfl

theorem gBytes_len : gBytes.length = 3 := rfl

theorem c8BigChunk_len : c8BigChunk.length = 33554417 := by
  rw [c8BigChunk, List.length_replicate]

theorem c8Payload_len : c8Payload.length = 33554432 := by
  rw [c8Payload, List.length_append, List.length_append, List.length_append,
    List.length_append, gBytes_len, c8BigChunk_len]
  rfl

theorem flatRep_len (n : Nat) : (List.flatten (List.replicate n (encodeU32 0))).length = 4 * n := by
  induction n with
  | zero => rfl
  | succ n ih =>
    rw [List.replicate_succ, List.flatten_cons, List.length_append, ih]
    simp [encodeU32]
    omega

theorem c8dPayload_len : c8dPayload.length = 800004 := by
  rw [c8dPayload, List.length_append, flatRep_len, encodeU32_len]

theorem c8Frame_drop4 : c8Frame.drop 4 = c8Payload := by
  rw [c8Frame, show (4 : Nat) = (encodeU32 33554432).length from rfl, List.drop_left]

theorem c8dFrame_drop4 : c8dFrame.drop 4 = c8dPayload := by
  rw [c8dFrame, show (4 : Nat) = (encodeU32 800004).length from rfl, List.drop_left]

theorem c8BigKey : bytesToString gBytes = "get" := by decide

theorem c8Payload_parse :
    parse_req c8Payload = some ["get", bytesToString c8BigChunk] := by
  rw [c8Payload, parse_req_two_args gBytes c8BigChunk (by rw [gBytes_len]; norm_num)
    (by rw [c8BigChunk_len]; norm_num), c8BigKey]

theorem c8dPayload_parse :
    parse_req c8dPayload = some (List.replicate 200000 "") := by
  rw [c8dPayload]
  unfold parse_req
  rw [readU32_encode 200000 _ (by norm_num)]
  dsimp only
  rw [if_neg (by simp [MAX_ARGS])]
  rw [parseLoop_empties]
  rfl

theorem c8Frame_bsize : (connWith c8Frame).incoming.bsize = 33554436 := by
  rw [connWith_bsize, c8Frame, List.length_append, c8Payload_len, encodeU32_len]

theorem c8dFrame_bsize : (connWith c8dFrame).incoming.bsize = 800008 := by
  rw [connWith_bsize, c8dFrame, List.length_append, c8dPayload_len, encodeU32_len]

/-- Witness for C8: a 33554433-byte prefix closes; a declared count of
200001 rejects; a complete frame of exactly `MAX_MSG` payload bytes and one
declaring exactly `MAX_ARGS` arguments are executed. -/
theorem claim_C8_witness :
    (try_one_request 0 srvEmpty (connWith (encodeU32 33554433)) =
      some (false, { connWith (encodeU32 33554433) with want_close := true }, srvEmpty)) ∧
    (parse_req [65, 13, 3, 0] = none) ∧
    (try_one_request 0 srvEmpty (connWith (encodeU32 4 ++ encodeU32 200001)) =
      some (false, { connWith (encodeU32 4 ++ encodeU32 200001) with want_close := true },
        srvEmpty)) ∧
    (try_one_request 0 srvEmpty (connWith c8Frame) =
      some (true, { connWith c8Frame with
                      incoming := (connWith c8Frame).incoming.consume (4 + MAX_MSG),
                      outgoing := (connWith c8Frame).outgoing.append
                        (make_response { status := RES_NX, payload := "" }) },
        cleanup_expired 0 srvEmpty)) ∧
    (try_one_request 0 srvEmpty (connWith c8dFrame) =
      some (true, { connWith c8dFrame with
                      incoming := (connWith c8dFrame).incoming.consume (4 + 800004),
                      outgoing := (connWith c8dFrame).outgoing.append
                        (make_response { status := RES_ERR, payload := "" }) },
        cleanup_expired 0 srvEmpty)) := by
  refine ⟨?_, ?_, ?_, ?_, ?_⟩
  · exact claim_C8_frame_limits.1 0 srvEmpty (connWith (encodeU32 33554433))
      (by decide) (by decide)
  · exact claim_C8_frame_limits.2.1 [65, 13, 3, 0] 200001 [] (by decide) (by decide)
  · exact claim_C8_frame_limits.2.2.1 0 srvEmpty (connWith (encodeU32 4 ++ encodeU32 200001)) 4
      (by decide) (by decide) (by decide) (by decide) (by decide)
  · refine claim_C8_frame_limits.2.2.2.1 0 srvEmpty (connWith c8Frame)
      ["get", bytesToString c8BigChunk] { status := RES_NX, payload := "" }
      (cleanup_expired 0 srvEmpty) ?_ ?_ ?_ ?_ ?_
    · rw [c8Frame_bsize]; norm_num
    · rw [connWith_dataList, c8Frame]
      rw [readU32_encode 33554432 _ (by norm_num)]
      rfl
    · rw [c8Frame_bsize]; norm_num [MAX_MSG]
    · rw [connWith_dataList, c8Frame_drop4]
      rw [show MAX_MSG = c8Payload.length from c8Payload_len.symm]
      rw [List.take_length, c8Payload_parse]
    · exact do_request_get_absent (bytesToString c8BigChunk) 0 srvEmpty (by rw [cleanup_empty]; rfl)
  · refine claim_C8_frame_limits.2.2.2.2 0 srvEmpty (connWith c8dFrame) 800004
      (List.flatten (List.replicate 200000 (encodeU32 0))) (List.replicate 200000 "")
      { status := RES_ERR, payload := "" } (cleanup_expired 0 srvEmpty) ?_ ?_ ?_ ?_ ?_ ?_ ?_
    · rw [c8dFrame_bsize]
      norm_num
    · rw [connWith_dataList, c8dFrame]
      rw [readU32_encode 800004 _ (by norm_num)]
      rfl
    · norm_num [MAX_MSG]
    · rw [c8dFrame_bsize]
    · rw [connWith_dataList, c8dFrame_drop4]
      rw [show (800004 : Nat) = c8dPayload.length from c8dPayload_len.symm]
      rw [List.take_length, c8dPayload]
      rw [readU32_encode 200000 _ (by norm_num)]
      rfl
    · rw [connWith_dataList, c8dFrame_drop4]
      rw [show (800004 : Nat) = c8dPayload.length from c8dPayload_len.symm]
      rw [List.take_length, c8dPayload_parse]
    · exact do_request_unknown_arity (List.replicate 200000 "") 0 srvEmpty
        (by rw [List.length_replicate]; decide) (by rw [List.length_replicate]; decide)
        (by rw [List.length_replicate]; decide) (by rw [List.length_replicate]; decide)

section MapInvariant

variable {α : Type}

theorem getD_set_self (l : List (List α)) (i : Nat) (c : List α) (h : i < l.length) :
    (l.set i c).getD i [] = c := by
  induction l generalizing i with
  | nil => exact absurd h (by simp)
  | cons hd tl ih =>
    cases i with
    | zero => rfl
    | succ j => exact ih j (by simpa using h)

theorem getD_set_ne (l : List (List α)) (i j : Nat) (c : List α) (h : i ≠ j) :
    (l.set i c).getD j [] = l.getD j [] := by
  induction l generalizing i j with
  | nil => simp
  | cons hd tl ih =>
    cases i with
    | zero =>
      cases j with
      | zero => exact absurd rfl h
      | succ j' => rfl
    | succ i' =>
      cases j with
      | zero => rfl
      | succ j' => exact ih i' j' (fun he => h (by rw [he]))

theorem set_getD_self (l : List (List α)) (i : Nat) (h : i < l.length) :
    l.set i (l.getD i []) = l := by
  induction l generalizing i with
  | nil => rfl
  | cons hd tl ih =>
    cases i with
    | zero => rfl
    | succ j => simpa using ih j (by simpa using h)

theorem flatten_set_perm (l : List (List α)) (i : Nat) (c : List α) (h : i < l.length) :
    (l.set i c).flatten ~ c ++ (l.set i []).flatten := by
  induction l generalizing i with
  | nil => exact absurd h (by simp)
  | cons hd tl ih =>
    cases i with
    | zero => simp
    | succ j =>
      have hj : j < tl.length := by simpa using h
      calc (hd :: tl.set j c).flatten = hd ++ (tl.set j c).flatten := by simp
        _ ~ hd ++ (c ++ (tl.set j []).flatten) := (ih j hj).append_left hd
        _ = (hd ++ c) ++ (tl.set j []).flatten := by rw [List.append_assoc]
        _ ~ (c ++ hd) ++ (tl.set j []).flatten := (List.perm_append_comm).append_right _
        _ = c ++ (hd ++ (tl.set j []).flatten) := by rw [List.append_assoc]
        _ = c ++ ((hd :: tl.set j []).flatten) := by simp

theorem flatten_getD_perm (l : List (List α)) (i : Nat) (h : i < l.length) :
    l.flatten ~ l.getD i [] ++ (l.set i []).flatten := by
  conv_lhs => rw [← set_getD_self l i h]
  exact flatten_set_perm l i (l.getD i []) h

theorem flatten_set_sublist (l : List (List α)) (i : Nat) (c : List α)
    (h : c <+ l.getD i []) : (l.set i c).flatten <+ l.flatten := by
  induction l generalizing i with
  | nil => simp
  | cons hd tl ih =>
    cases i with
    | zero => simpa using List.Sublist.append h (List.Sublist.refl tl.flatten)
    | succ j => simpa using List.Sublist.append (List.Sublist.refl hd) (ih j h)

theorem flatten_eq_nil_of_empty (l : List (List α))
    (h : ∀ i, i < l.length → l.getD i [] = []) : l.flatten = [] := by
  induction l with
  | nil => rfl
  | cons hd tl ih =>
    have h0 : hd = [] := h 0 (by simp)
    have ht : ∀ i, i < tl.length → tl.getD i [] = [] := by
      intro i hi
      exact h (i + 1) (by simpa using hi)
    simp [h0, ih ht]

theorem replicate_getD_nil (n i : Nat) :
    (List.replicate n ([] : List α)).getD i [] = [] := by
  induction n generalizing i with
  | zero => simp
  | succ m ih =>
    cases i with
    | zero => rfl
    | succ j => exact ih j

end MapInvariant

section ChainLemmas

variable {K V : Type} [DecidableEq K]

theorem chainFind_none_iff (c : List (K × V)) (k : K) :
    chainFind c k = none ↔ k ∉ c.map Prod.fst := by
  induction c with
  | nil => simp [chainFind]
  | cons kv rest ih =>
    cases kv with
    | mk k' v' =>
      simp only [chainFind, List.map_cons, List.mem_cons]
      by_cases he : k' = k
      · simp [he]
      · simp only [if_neg he, ih]
        constructor
        · intro h hk
          rcases hk with h1 | h2
          · exact he h1.symm
          · exact h h2
        · intro h hk
          exact h (Or.inr hk)

theorem chainFind_some_mem (c : List (K × V)) (k : K) (v : V)
    (h : chainFind c k = some v) : k ∈ c.map Prod.fst := by
  by_contra hmem
  rw [← chainFind_none_iff] at hmem
  rw [hmem] at h
  exact absurd h (by simp)

theorem chainReplace_map_fst (c : List (K × V)) (k : K) (v : V) :
    (chainReplace c k v).map Prod.fst = c.map Prod.fst := by
  induction c with
  | nil => rfl
  | cons kv rest ih =>
    cases kv with
    | mk k' v' =>
      by_cases he : k' = k
      · simp [chainReplace, he]
      · simp [chainReplace, he, ih]

theorem chainReplace_nil (k : K) (v : V) : chainReplace ([] : List (K × V)) k v = [] := rfl

theorem chainRemove_sublist (c : List (K × V)) (k : K) : chainRemove c k <+ c := by
  induction c with
  | nil => exact List.Sublist.refl []
  | cons kv rest ih =>
    cases kv with
    | mk k' v' =>
      by_cases he : k' = k
      · simp only [chainRemove, if_pos he]
        exact List.sublist_cons_self (k', v') rest
      · simp only [chainRemove, if_neg he]
        exact ih.cons₂ (k', v')

theorem chainRemove_nil (k : K) : chainRemove ([] : List (K × V)) k = [] := rfl

end ChainLemmas

section TableLemmas

variable {K V : Type} [DecidableEq K] (hf : K → Nat)

theorem HTable.bidx_lt (t : HTable K V) (k : K) (hw : TableWF hf t) :
    t.bidx hf k < t.buckets.length := by
  rw [hw.1]
  exact Nat.lt_succ_of_le (Nat.and_le_right)

theorem getD_set_cases (l : List (List (K × V))) (i j : Nat) (c : List (K × V)) :
    (l.set i c).getD j [] =
    if i = j ∧ i < l.length then c else l.getD j [] := by
  by_cases hij : i = j
  · by_cases hlen : i < l.length
    · rw [if_pos ⟨hij, hlen⟩, ← hij, getD_set_self l i c hlen]
    · rw [if_neg (fun hc => hlen hc.2), List.set_eq_of_length_le (Nat.le_of_not_lt hlen)]
  · rw [if_neg (fun hc => hij hc.1), getD_set_ne l i j c hij]

theorem keysOf_mem_iff (t : HTable K V) (x : K) :
    x ∈ keysOf t ↔ ∃ i, i < t.buckets.length ∧ x ∈ (t.bucketAt i).map Prod.fst := by
  unfold keysOf
  constructor
  · intro hx
    obtain ⟨kv, hkv, hfst⟩ := List.mem_map.mp hx
    obtain ⟨c, hc, hkvc⟩ := List.mem_flatten.mp hkv
    obtain ⟨i, hi, hci⟩ := List.mem_iff_getElem.mp hc
    refine ⟨i, hi, ?_⟩
    rw [HTable.bucketAt, List.getD_eq_getElem _ _ hi, hci]
    exact List.mem_map.mpr ⟨kv, hkvc, hfst⟩
  · rintro ⟨i, hi, hx⟩
    rw [HTable.bucketAt, List.getD_eq_getElem _ _ hi] at hx
    obtain ⟨kv, hkv, hfst⟩ := List.mem_map.mp hx
    exact List.mem_map.mpr ⟨kv,
      List.mem_flatten.mpr ⟨t.buckets[i], List.getElem_mem hi, hkv⟩, hfst⟩

theorem find_none_not_mem (t : HTable K V) (k : K) (hw : TableWF hf t)
    (h : t.find hf k = none) : k ∉ keysOf t := by
  intro hmem
  obtain ⟨i, hi, hx⟩ := (keysOf_mem_iff t k).mp hmem
  have hib : i = t.bidx hf k := (hw.2 i k hx).symm
  rw [hib] at hx
  exact (chainFind_none_iff _ k).mp h hx

theorem keys_decomp (t : HTable K V) (j : Nat) (hj : j < t.buckets.length) :
    (t.bucketAt j).map Prod.fst ++ ((t.buckets.set j []).flatten).map Prod.fst ~ keysOf t := by
  have h2 := (flatten_getD_perm t.buckets j hj).map (Prod.fst : K × V → K)
  unfold keysOf
  rw [List.map_append] at h2
  exact h2.symm

theorem keys_set_chain (t : HTable K V) (j : Nat) (c : List (K × V))
    (hj : j < t.buckets.length) :
    ((t.buckets.set j c).flatten).map Prod.fst ~
    c.map Prod.fst ++ ((t.buckets.set j []).flatten).map Prod.fst := by
  have h1 := (flatten_set_perm t.buckets j c hj).map (Prod.fst : K × V → K)
  rw [List.map_append] at h1
  exact h1

theorem pushFront_wf (t : HTable K V) (k : K) (v : V) (hw : TableWF hf t) :
    TableWF hf (t.pushFront hf k v) := by
  refine ⟨by simpa [HTable.pushFront] using hw.1, ?_⟩
  intro i x hx
  show hf x &&& t.mask = i
  simp only [HTable.pushFront, HTable.bucketAt] at hx
  rw [getD_set_cases] at hx
  by_cases hc : t.bidx hf k = i ∧ t.bidx hf k < t.buckets.length
  · rw [if_pos hc] at hx
    simp only [List.map_cons, List.mem_cons] at hx
    rcases hx with h1 | h2
    · rw [h1, ← hc.1]
      rfl
    · rw [← hc.1]
      exact hw.2 (t.bidx hf k) x h2
  · rw [if_neg hc] at hx
    exact hw.2 i x hx

theorem pushFront_keys (t : HTable K V) (k : K) (v : V) (hw : TableWF hf t) :
    keysOf (t.pushFront hf k v) ~ k :: keysOf t := by
  have hlt := t.bidx_lt hf k hw
  have h1 : keysOf (t.pushFront hf k v) ~
      ((k, v) :: t.bucketAt (t.bidx hf k)).map Prod.fst ++
      ((t.buckets.set (t.bidx hf k) []).flatten).map Prod.fst :=
    keys_set_chain t (t.bidx hf k) _ hlt
  refine h1.trans ?_
  simp only [List.map_cons, List.cons_append]
  exact List.Perm.cons k (keys_decomp t (t.bidx hf k) hlt)

theorem replace_wf (t : HTable K V) (k : K) (v : V) (hw : TableWF hf t) :
    TableWF hf (t.replace hf k v) := by
  refine ⟨by simpa [HTable.replace] using hw.1, ?_⟩
  intro i x hx
  show hf x &&& t.mask = i
  simp only [HTable.replace, HTable.bucketAt] at hx
  rw [getD_set_cases] at hx
  by_cases hc : t.bidx hf k = i ∧ t.bidx hf k < t.buckets.length
  · rw [if_pos hc, chainReplace_map_fst] at hx
    rw [← hc.1]
    exact hw.2 (t.bidx hf k) x hx
  · rw [if_neg hc] at hx
    exact hw.2 i x hx

theorem replace_keys (t : HTable K V) (k : K) (v : V) (hw : TableWF hf t) :
    keysOf (t.replace hf k v) ~ keysOf t := by
  have hlt := t.bidx_lt hf k hw
  have h1 : keysOf (t.replace hf k v) ~
      (chainReplace (t.bucketAt (t.bidx hf k)) k v).map Prod.fst ++
      ((t.buckets.set (t.bidx hf k) []).flatten).map Prod.fst :=
    keys_set_chain t (t.bidx hf k) _ hlt
  refine h1.trans ?_
  rw [chainReplace_map_fst]
  exact keys_decomp t (t.bidx hf k) hlt

theorem replace_bucket_nil (t : HTable K V) (k : K) (v : V) (i : Nat)
    (h : t.bucketAt i = []) : (t.replace hf k v).bucketAt i = [] := by
  simp only [HTable.replace, HTable.bucketAt] at h ⊢
  rw [getD_set_cases]
  by_cases hc : t.bidx hf k = i ∧ t.bidx hf k < t.buckets.length
  · rw [if_pos hc]
    rw [← hc.1] at h
    rw [h]
    rfl
  · rw [if_neg hc]
    exact h

theorem removeKey_wf (t : HTable K V) (k : K) (hw : TableWF hf t) :
    TableWF hf (t.removeKey hf k) := by
  refine ⟨by simpa [HTable.removeKey] using hw.1, ?_⟩
  intro i x hx
  show hf x &&& t.mask = i
  simp only [HTable.removeKey, HTable.bucketAt] at hx
  rw [getD_set_cases] at hx
  by_cases hc : t.bidx hf k = i ∧ t.bidx hf k < t.buckets.length
  · rw [if_pos hc] at hx
    have hsub : x ∈ (t.bucketAt (t.bidx hf k)).map Prod.fst :=
      ((chainRemove_sublist (t.bucketAt (t.bidx hf k)) k).map
        (Prod.fst : K × V → K)).mem hx
    rw [← hc.1]
    exact hw.2 (t.bidx hf k) x hsub
  · rw [if_neg hc] at hx
    exact hw.2 i x hx

theorem removeKey_keys (t : HTable K V) (k : K) :
    keysOf (t.removeKey hf k) <+ keysOf t := by
  unfold keysOf
  refine List.Sublist.map Prod.fst ?_
  exact flatten_set_sublist t.buckets (t.bidx hf k) _
    (chainRemove_sublist (t.buckets.getD (t.bidx hf k) []) k)

theorem removeKey_bucket_nil (t : HTable K V) (k : K) (i : Nat)
    (h : t.bucketAt i = []) : (t.removeKey hf k).bucketAt i = [] := by
  simp only [HTable.removeKey, HTable.bucketAt] at h ⊢
  rw [getD_set_cases]
  by_cases hc : t.bidx hf k = i ∧ t.bidx hf k < t.buckets.length
  · rw [if_pos hc]
    rw [← hc.1] at h
    rw [h]
    rfl
  · rw [if_neg hc]
    exact h

theorem pushFront_bucket_ne (t : HTable K V) (k : K) (v : V) (i : Nat)
    (h : t.bidx hf k ≠ i) : (t.pushFront hf k v).bucketAt i = t.bucketAt i := by
  simp only [HTable.pushFront, HTable.bucketAt]
  rw [getD_set_cases, if_neg (fun hc => h hc.1)]

end TableLemmas

section MigrationLemmas

variable {K V : Type} [DecidableEq K] (hf : K → Nat)

theorem moveChain_spec (b : List (K × V)) (t2 : HTable K V) (hw : TableWF hf t2) :
    TableWF hf (moveChain hf b t2) ∧
    keysOf (moveChain hf b t2) ~ b.map Prod.fst ++ keysOf t2 := by
  induction b generalizing t2 with
  | nil => exact ⟨hw, by simp [moveChain]⟩
  | cons kv rest ih =>
    obtain ⟨hw', hk'⟩ := ih (t2.pushFront hf kv.1 kv.2) (pushFront_wf hf t2 kv.1 kv.2 hw)
    refine ⟨hw', ?_⟩
    refine hk'.trans ?_
    refine ((pushFront_keys hf t2 kv.1 kv.2 hw).append_left (rest.map Prod.fst)).trans ?_
    simpa using (List.perm_middle).symm

theorem keysOf_mk (bs : List (List (K × V))) (sz m : Nat) :
    keysOf (⟨bs, sz, m⟩ : HTable K V) = (bs.flatten).map Prod.fst := rfl

theorem helpFrom_spec (t1 t2 : HTable K V) (fuel pos : Nat)
    (hw1 : TableWF hf t1) (hw2 : TableWF hf t2)
    (hemp : ∀ i, i < pos → t1.bucketAt i = []) :
    TableWF hf (helpFrom hf fuel t1 t2 pos).1 ∧
    TableWF hf (helpFrom hf fuel t1 t2 pos).2.1 ∧
    (∀ i, i < (helpFrom hf fuel t1 t2 pos).2.2 →
      (helpFrom hf fuel t1 t2 pos).1.bucketAt i = []) ∧
    (keysOf (helpFrom hf fuel t1 t2 pos).1 ++ keysOf (helpFrom hf fuel t1 t2 pos).2.1 ~
      keysOf t1 ++ keysOf t2) ∧
    (helpFrom hf fuel t1 t2 pos).1.buckets.length = t1.buckets.length := by
  induction fuel generalizing pos with
  | zero => exact ⟨hw1, hw2, hemp, List.Perm.refl _, rfl⟩
  | succ fuel ih =>
    simp only [helpFrom]
    by_cases hp : pos < t1.buckets.length
    · rw [if_pos hp]
      cases hb : t1.bucketAt pos with
      | nil =>
        dsimp only
        have hemp' : ∀ i, i < pos + 1 → t1.bucketAt i = [] := by
          intro i hi
          rcases Nat.lt_succ_iff_lt_or_eq.mp hi with h1 | h2
          · exact hemp i h1
          · rw [h2]; exact hb
        exact ih (pos + 1) hemp'
      | cons b0 brest =>
        dsimp only
        obtain ⟨hwm, hkm⟩ := moveChain_spec hf (b0 :: brest) t2 hw2
        refine ⟨⟨by simpa using hw1.1, ?_⟩, hwm, ?_, ?_, by simp⟩
        · intro i x hx
          show hf x &&& t1.mask = i
          simp only [HTable.bucketAt] at hx
          rw [getD_set_cases] at hx
          by_cases hc : pos = i ∧ pos < t1.buckets.length
          · rw [if_pos hc] at hx
            exact absurd hx (by simp)
          · rw [if_neg hc] at hx
            exact hw1.2 i x hx
        · intro i hi
          simp only [HTable.bucketAt]
          rw [getD_set_cases]
          by_cases hc : pos = i ∧ pos < t1.buckets.length
          · rw [if_pos hc]
          · rw [if_neg hc]
            have hne : pos ≠ i := fun he => hc ⟨he, hp⟩
            have hilt : i < pos := by omega
            exact hemp i hilt
        · have hdec := keys_decomp (V := V) t1 pos hp
          rw [hb] at hdec
          rw [keysOf_mk]
          refine (hkm.append_left _).trans ?_
          rw [← List.append_assoc]
          refine List.Perm.append_right (keysOf t2) ?_
          have hcomm : ((t1.buckets.set pos []).flatten).map Prod.fst ++
              ((b0 :: brest).map Prod.fst) ~
              ((b0 :: brest).map Prod.fst) ++
              ((t1.buckets.set pos []).flatten).map Prod.fst :=
            List.perm_append_comm
          exact hcomm.trans hdec
    · rw [if_neg hp]
      exact ⟨hw1, hw2, hemp, List.Perm.refl _, rfl⟩

theorem allKeys_some (s : ProgressiveHashMap K V) (t2 : HTable K V) (h : s.ht2 = some t2) :
    allKeys s = keysOf s.ht1 ++ keysOf t2 := by
  simp [allKeys, h]

theorem allKeys_none (s : ProgressiveHashMap K V) (h : s.ht2 = none) :
    allKeys s = keysOf s.ht1 ++ [] := by
  simp [allKeys, h]

theorem allKeys_mk (t1 : HTable K V) (t2 : Option (HTable K V)) (p : Nat) (b : Bool) :
    allKeys (⟨t1, t2, p, b⟩ : ProgressiveHashMap K V) =
    keysOf t1 ++ (match t2 with | none => [] | some t => keysOf t) := rfl

theorem help_resizing_inv (s : ProgressiveHashMap K V) (hinv : MapInv hf s) :
    MapInv hf (s.help_resizing hf) ∧ allKeys (s.help_resizing hf) ~ allKeys s := by
  cases hht : s.ht2 with
  | none =>
    have hid : s.help_resizing hf = s := by
      simp [ProgressiveHashMap.help_resizing, hht]
    rw [hid]
    exact ⟨hinv, List.Perm.refl _⟩
  | some t2 =>
    have hw1 := hinv.1
    have hw2 := hinv.2.1 t2 hht
    have hnd := hinv.2.2.1
    have hemp : ∀ i, i < s.resizing_pos → s.ht1.bucketAt i = [] :=
      hinv.2.2.2 (by rw [hht]; rfl)
    rw [allKeys_some s t2 hht] at hnd
    set r := helpFrom hf (s.ht1.buckets.length - s.resizing_pos) s.ht1 t2 s.resizing_pos
      with hr
    obtain ⟨sw1, sw2, semp, sperm, slen⟩ := helpFrom_spec hf s.ht1 t2
      (s.ht1.buckets.length - s.resizing_pos) s.resizing_pos hw1 hw2 hemp
    rw [← hr] at sw1 sw2 semp sperm slen
    have hunf : s.help_resizing hf =
        if r.1.buckets.length ≤ r.2.2 then
          (⟨r.2.1, none, 0, false⟩ : ProgressiveHashMap K V)
        else (⟨r.1, some r.2.1, r.2.2, s.is_shrinking⟩ : ProgressiveHashMap K V) := by
      simp only [ProgressiveHashMap.help_resizing, hht, ← hr]
    rw [hunf, allKeys_some s t2 hht]
    by_cases hdone : r.1.buckets.length ≤ r.2.2
    · rw [if_pos hdone]
      have hnil : keysOf r.1 = [] := by
        unfold keysOf
        rw [flatten_eq_nil_of_empty]
        · rfl
        · intro i hi
          exact semp i (Nat.lt_of_lt_of_le hi hdone)
      have hperm : keysOf r.2.1 ~ keysOf s.ht1 ++ keysOf t2 := by
        refine List.Perm.trans ?_ sperm
        rw [hnil]
        exact List.Perm.refl _
      refine ⟨⟨sw2, ?_, ?_, ?_⟩, ?_⟩
      · intro t2' ht'
        exact absurd ht' (by simp)
      · rw [allKeys_mk, List.append_nil]
        exact (hperm.nodup_iff).mpr hnd
      · intro hcontra
        exact absurd hcontra (by simp)
      · rw [allKeys_mk, List.append_nil]
        exact hperm
    · rw [if_neg hdone]
      refine ⟨⟨sw1, ?_, ?_, ?_⟩, ?_⟩
      · intro t2' ht'
        injection ht' with he
        rw [← he]
        exact sw2
      · rw [allKeys_mk]
        exact (sperm.nodup_iff).mpr hnd
      · intro _ i hi
        exact semp i hi
      · rw [allKeys_mk]
        exact sperm

theorem roundPow2_ge (fuel target acc : Nat) : acc ≤ roundPow2 fuel target acc := by
  induction fuel generalizing acc with
  | zero => exact Nat.le_refl acc
  | succ fuel ih =>
    simp only [roundPow2]
    by_cases h : acc < target
    · rw [if_pos h]
      calc acc ≤ acc * 2 := by omega
        _ ≤ roundPow2 fuel target (acc * 2) := ih (acc * 2)
    · rw [if_neg h]

theorem newHashTable_wf (c : Nat) : TableWF hf (newHashTable K V c) := by
  have hge : 1 ≤ roundPow2 c c 1 := roundPow2_ge c c 1
  constructor
  · show (List.replicate (roundPow2 c c 1) ([] : List (K × V))).length =
      (roundPow2 c c 1 - 1) + 1
    rw [List.length_replicate]
    omega
  · intro i x hx
    rw [show (newHashTable K V c).bucketAt i = [] from replicate_getD_nil _ i] at hx
    exact absurd hx (by simp)

theorem newHashTable_keys (c : Nat) : keysOf (newHashTable K V c) = [] := by
  unfold keysOf
  rw [flatten_eq_nil_of_empty]
  · rfl
  · intro i _
    exact replicate_getD_nil _ i

theorem start_resizing_inv (s : ProgressiveHashMap K V) (b : Bool) (hn : s.ht2 = none)
    (hinv : MapInv hf s) :
    MapInv hf (s.start_resizing b) ∧ allKeys (s.start_resizing b) ~ allKeys s := by
  have hnd := hinv.2.2.1
  rw [allKeys_none s hn] at hnd
  have hfresh : ∀ (c : Nat),
      MapInv hf (⟨s.ht1, some (newHashTable K V c), 0, b⟩ : ProgressiveHashMap K V) ∧
      allKeys (⟨s.ht1, some (newHashTable K V c), 0, b⟩ : ProgressiveHashMap K V) ~
        allKeys s := by
    intro c
    constructor
    · refine ⟨hinv.1, ?_, ?_, ?_⟩
      · intro t2' ht'
        injection ht' with he
        rw [← he]
        exact newHashTable_wf hf c
      · rw [allKeys_mk]
        show (keysOf s.ht1 ++ keysOf (newHashTable K V c)).Nodup
        rw [newHashTable_keys]
        exact hnd
      · intro _ i hi
        exact absurd (show i < 0 from hi) (Nat.not_lt_zero i)
    · rw [allKeys_mk, allKeys_none s hn]
      show keysOf s.ht1 ++ keysOf (newHashTable K V c) ~ keysOf s.ht1 ++ []
      rw [newHashTable_keys]
  cases b with
  | true =>
    simp only [ProgressiveHashMap.start_resizing, if_pos]
    by_cases hc : s.ht1.buckets.length / 2 < 16
    · rw [if_pos hc]
      exact ⟨hinv, List.Perm.refl _⟩
    · rw [if_neg hc]
      have := hfresh (s.ht1.buckets.length / 2)
      constructor
      · exact (show MapInv hf _ from this.1)
      · exact this.2
  | false =>
    simp only [ProgressiveHashMap.start_resizing, Bool.false_eq_true, if_neg,
      not_false_iff]
    have := hfresh (s.ht1.buckets.length * 2)
    exact ⟨this.1, this.2⟩

theorem check_load_factor_inv (s : ProgressiveHashMap K V) (hinv : MapInv hf s) :
    MapInv hf s.check_load_factor ∧ allKeys s.check_load_factor ~ allKeys s := by
  unfold ProgressiveHashMap.check_load_factor
  by_cases h2 : s.ht2.isSome
  · rw [if_pos h2]
    exact ⟨hinv, List.Perm.refl _⟩
  · rw [if_neg h2]
    have hn : s.ht2 = none := Option.not_isSome_iff_eq_none.mp h2
    by_cases hg : 3 * s.ht1.buckets.length < 4 * s.ht1.size
    · rw [if_pos hg]
      exact start_resizing_inv hf s false hn hinv
    · rw [if_neg hg]
      by_cases hs : 4 * s.ht1.size < s.ht1.buckets.length ∧ 16 < s.ht1.buckets.length
      · rw [if_pos hs]
        exact start_resizing_inv hf s true hn hinv
      · rw [if_neg hs]
        exact ⟨hinv, List.Perm.refl _⟩

theorem MapInv_empty : MapInv hf (ProgressiveHashMap.emptyMap K V) := by
  refine ⟨newHashTable_wf hf 16, ?_, ?_, ?_⟩
  · intro t2' ht'
    exact absurd ht' (by simp [ProgressiveHashMap.emptyMap])
  · show (allKeys (⟨newHashTable K V 16, none, 0, false⟩ : ProgressiveHashMap K V)).Nodup
    rw [allKeys_mk, newHashTable_keys]
    exact List.nodup_nil
  · intro hcontra
    exact absurd hcontra (by simp [ProgressiveHashMap.emptyMap])

theorem allKeys_unfold (s : ProgressiveHashMap K V) :
    allKeys s = keysOf s.ht1 ++ (match s.ht2 with | none => [] | some t => keysOf t) := rfl

theorem replace_ht1_inv (s1 : ProgressiveHashMap K V) (k : K) (v : V)
    (hinv1 : MapInv hf s1) : MapInv hf { s1 with ht1 := s1.ht1.replace hf k v } := by
  refine ⟨replace_wf hf s1.ht1 k v hinv1.1, ?_, ?_, ?_⟩
  · intro t2' ht'
    exact hinv1.2.1 t2' ht'
  · rw [allKeys_mk]
    refine (List.Perm.append_right _ (replace_keys hf s1.ht1 k v hinv1.1)).nodup_iff.mpr ?_
    rw [← allKeys_unfold]
    exact hinv1.2.2.1
  · intro hsome i hi
    exact replace_bucket_nil hf s1.ht1 k v i (hinv1.2.2.2 hsome i hi)

theorem replace_ht2_inv (s1 : ProgressiveHashMap K V) (t2 : HTable K V)
    (hht : s1.ht2 = some t2) (k : K) (v : V) (hinv1 : MapInv hf s1) :
    MapInv hf { s1 with ht2 := some (t2.replace hf k v) } := by
  have hw2 := hinv1.2.1 t2 hht
  refine ⟨hinv1.1, ?_, ?_, ?_⟩
  · intro t2' ht'
    have he : some (t2.replace hf k v) = some t2' := ht'
    injection he with he
    rw [← he]
    exact replace_wf hf t2 k v hw2
  · rw [allKeys_mk]
    refine (List.Perm.append_left _ (replace_keys hf t2 k v hw2)).nodup_iff.mpr ?_
    have hnd := hinv1.2.2.1
    rw [allKeys_some s1 t2 hht] at hnd
    exact hnd
  · intro _ i hi
    exact hinv1.2.2.2 (by rw [hht]; rfl) i hi

theorem removeKey_ht1_inv (s1 : ProgressiveHashMap K V) (k : K)
    (hinv1 : MapInv hf s1) : MapInv hf { s1 with ht1 := s1.ht1.removeKey hf k } := by
  refine ⟨removeKey_wf hf s1.ht1 k hinv1.1, ?_, ?_, ?_⟩
  · intro t2' ht'
    exact hinv1.2.1 t2' ht'
  · rw [allKeys_mk]
    have hsub := (removeKey_keys hf s1.ht1 k).append_right
      (match s1.ht2 with | none => [] | some t => keysOf t)
    refine List.Nodup.sublist hsub ?_
    rw [← allKeys_unfold]
    exact hinv1.2.2.1
  · intro hsome i hi
    exact removeKey_bucket_nil hf s1.ht1 k i (hinv1.2.2.2 hsome i hi)

theorem removeKey_ht2_inv (s1 : ProgressiveHashMap K V) (t2 : HTable K V)
    (hht : s1.ht2 = some t2) (k : K) (hinv1 : MapInv hf s1) :
    MapInv hf { s1 with ht2 := some (t2.removeKey hf k) } := by
  have hw2 := hinv1.2.1 t2 hht
  refine ⟨hinv1.1, ?_, ?_, ?_⟩
  · intro t2' ht'
    have he : some (t2.removeKey hf k) = some t2' := ht'
    injection he with he
    rw [← he]
    exact removeKey_wf hf t2 k hw2
  · rw [allKeys_mk]
    have hsub := (removeKey_keys hf t2 k).append_left (keysOf s1.ht1)
    refine List.Nodup.sublist hsub ?_
    have hnd := hinv1.2.2.1
    rw [allKeys_some s1 t2 hht] at hnd
    exact hnd
  · intro _ i hi
    exact hinv1.2.2.2 (by rw [hht]; rfl) i hi

theorem not_mem_allKeys (s1 : ProgressiveHashMap K V) (k : K) (hinv1 : MapInv hf s1)
    (hf1 : s1.ht1.find hf k = none)
    (hf2 : ∀ t2, s1.ht2 = some t2 → t2.find hf k = none) : k ∉ allKeys s1 := by
  rw [allKeys_unfold]
  intro hmem
  rcases List.mem_append.mp hmem with h1 | h2
  · exact find_none_not_mem hf s1.ht1 k hinv1.1 hf1 h1
  · cases hht : s1.ht2 with
    | none =>
      rw [hht] at h2
      exact absurd h2 (by simp)
    | some t2 =>
      rw [hht] at h2
      exact find_none_not_mem hf t2 k (hinv1.2.1 t2 hht) (hf2 t2 hht) h2

theorem pushFront_ht1_inv (s1 : ProgressiveHashMap K V) (k : K) (v : V)
    (hinv1 : MapInv hf s1) (hnm : k ∉ allKeys s1)
    (hroute : s1.ht2.isSome = true → ¬(s1.ht1.bidx hf k < s1.resizing_pos)) :
    MapInv hf { s1 with ht1 := s1.ht1.pushFront hf k v } := by
  refine ⟨pushFront_wf hf s1.ht1 k v hinv1.1, ?_, ?_, ?_⟩
  · intro t2' ht'
    exact hinv1.2.1 t2' ht'
  · rw [allKeys_mk]
    have hstep : keysOf (s1.ht1.pushFront hf k v) ++
        (match s1.ht2 with | none => [] | some t => keysOf t) ~
        k :: allKeys s1 := by
      rw [allKeys_unfold]
      refine ((pushFront_keys hf s1.ht1 k v hinv1.1).append_right _).trans ?_
      exact List.Perm.refl _
    refine hstep.nodup_iff.mpr ?_
    exact List.nodup_cons.mpr ⟨hnm, hinv1.2.2.1⟩
  · intro hsome i hi
    have hi' : i < s1.resizing_pos := hi
    have hge := hroute hsome
    have hne : s1.ht1.bidx hf k ≠ i := by omega
    have hbn := pushFront_bucket_ne hf s1.ht1 k v i hne
    show (s1.ht1.pushFront hf k v).bucketAt i = []
    rw [hbn]
    exact hinv1.2.2.2 hsome i hi' 

theorem pushFront_ht2_inv (s1 : ProgressiveHashMap K V) (t2 : HTable K V)
    (hht : s1.ht2 = some t2) (k : K) (v : V) (hinv1 : MapInv hf s1)
    (hnm : k ∉ allKeys s1) :
    MapInv hf { s1 with ht2 := some (t2.pushFront hf k v) } := by
  have hw2 := hinv1.2.1 t2 hht
  refine ⟨hinv1.1, ?_, ?_, ?_⟩
  · intro t2' ht'
    have he : some (t2.pushFront hf k v) = some t2' := ht'
    injection he with he
    rw [← he]
    exact pushFront_wf hf t2 k v hw2
  · rw [allKeys_mk]
    have hstep : keysOf s1.ht1 ++ keysOf (t2.pushFront hf k v) ~ k :: allKeys s1 := by
      rw [allKeys_some s1 t2 hht]
      refine ((pushFront_keys hf t2 k v hw2).append_left (keysOf s1.ht1)).trans ?_
      exact List.perm_middle
    refine hstep.nodup_iff.mpr ?_
    exact List.nodup_cons.mpr ⟨hnm, hinv1.2.2.1⟩
  · intro _ i hi
    exact hinv1.2.2.2 (by rw [hht]; rfl) i hi

theorem insertNew_inv (s1 : ProgressiveHashMap K V) (k : K) (v : V)
    (hinv1 : MapInv hf s1) (hnm : k ∉ allKeys s1) :
    MapInv hf (s1.insertNew hf k v) := by
  have hunf : s1.insertNew hf k v =
      if s1.get_insert_table hf k then
        (match s1.ht2 with
         | some t2 => { s1 with ht2 := some (t2.pushFront hf k v) }
         | none => { s1 with ht1 := s1.ht1.pushFront hf k v })
      else { s1 with ht1 := s1.ht1.pushFront hf k v } := rfl
  rw [hunf]
  cases hht : s1.ht2 with
  | none =>
    have hgi : s1.get_insert_table hf k = false := by
      simp [ProgressiveHashMap.get_insert_table, hht]
    rw [hgi]
    dsimp only
    have hres := pushFront_ht1_inv hf s1 k v hinv1 hnm
      (fun hsome => absurd (hht ▸ hsome) (by simp))
    rw [hht] at hres
    exact hres
  | some t2 =>
    by_cases hroute : s1.ht1.bidx hf k < s1.resizing_pos
    · have hgi : s1.get_insert_table hf k = true := by
        simp only [ProgressiveHashMap.get_insert_table, hht]
        exact decide_eq_true hroute
      rw [hgi]
      dsimp only
      exact pushFront_ht2_inv hf s1 t2 hht k v hinv1 hnm
    · have hgi : s1.get_insert_table hf k = false := by
        simp only [ProgressiveHashMap.get_insert_table, hht]
        exact decide_eq_false hroute
      rw [hgi]
      dsimp only
      have hres := pushFront_ht1_inv hf s1 k v hinv1 hnm (fun _ => hroute)
      rw [hht] at hres
      exact hres

theorem set_inv (s : ProgressiveHashMap K V) (k : K) (v : V) (hinv : MapInv hf s) :
    MapInv hf (s.set hf k v) := by
  obtain ⟨hinv1, -⟩ := help_resizing_inv hf s hinv
  have hunf : s.set hf k v =
      (match (s.help_resizing hf).ht2 with
       | some t2 =>
         if (t2.find hf k).isSome then
           { s.help_resizing hf with ht2 := some (t2.replace hf k v) }
         else if ((s.help_resizing hf).ht1.find hf k).isSome then
           { s.help_resizing hf with ht1 := (s.help_resizing hf).ht1.replace hf k v }
         else (ProgressiveHashMap.insertNew hf (s.help_resizing hf) k v).check_load_factor
       | none =>
         if ((s.help_resizing hf).ht1.find hf k).isSome then
           { s.help_resizing hf with ht1 := (s.help_resizing hf).ht1.replace hf k v }
         else (ProgressiveHashMap.insertNew hf (s.help_resizing hf) k v).check_load_factor) :=
    rfl
  rw [hunf]
  cases hht : (s.help_resizing hf).ht2 with
  | some t2 =>
    dsimp only
    by_cases hc2 : (t2.find hf k).isSome
    · rw [if_pos hc2]
      exact replace_ht2_inv hf _ t2 hht k v hinv1
    · rw [if_neg hc2]
      by_cases hc1 : ((s.help_resizing hf).ht1.find hf k).isSome
      · rw [if_pos hc1]
        exact replace_ht1_inv hf (s.help_resizing hf) k v hinv1
      · rw [if_neg hc1]
        refine (check_load_factor_inv hf _ ?_).1
        refine insertNew_inv hf _ k v hinv1 ?_
        refine not_mem_allKeys hf _ k hinv1
          (Option.not_isSome_iff_eq_none.mp hc1) ?_
        intro t2' ht'
        rw [hht] at ht'
        injection ht' with he
        rw [← he]
        exact Option.not_isSome_iff_eq_none.mp hc2
  | none =>
    dsimp only
    by_cases hc1 : ((s.help_resizing hf).ht1.find hf k).isSome
    · rw [if_pos hc1]
      exact replace_ht1_inv hf (s.help_resizing hf) k v hinv1
    · rw [if_neg hc1]
      refine (check_load_factor_inv hf _ ?_).1
      refine insertNew_inv hf _ k v hinv1 ?_
      refine not_mem_allKeys hf _ k hinv1
        (Option.not_isSome_iff_eq_none.mp hc1) ?_
      intro t2' ht'
      rw [hht] at ht'
      exact absurd ht' (by simp)

theorem del_inv (s : ProgressiveHashMap K V) (k : K) (hinv : MapInv hf s) :
    MapInv hf (s.del hf k).2 := by
  obtain ⟨hinv1, -⟩ := help_resizing_inv hf s hinv
  cases hht : (s.help_resizing hf).ht2 with
  | some t2 =>
    by_cases hc2 : (t2.find hf k).isSome
    · have he : (s.del hf k).2 =
          ({ s.help_resizing hf with
             ht2 := some (t2.removeKey hf k) }).check_load_factor := by
        simp [ProgressiveHashMap.del, hht, hc2]
      rw [he]
      exact (check_load_factor_inv hf _ (removeKey_ht2_inv hf _ t2 hht k hinv1)).1
    · by_cases hc1 : ((s.help_resizing hf).ht1.find hf k).isSome
      · have he : (s.del hf k).2 =
            ({ s.help_resizing hf with
               ht1 := (s.help_resizing hf).ht1.removeKey hf k }).check_load_factor := by
          simp [ProgressiveHashMap.del, hht, hc2, hc1]
        rw [he]
        exact (check_load_factor_inv hf _
          (removeKey_ht1_inv hf (s.help_resizing hf) k hinv1)).1
      · have he : (s.del hf k).2 = s.help_resizing hf := by
          simp [ProgressiveHashMap.del, hht, hc2, hc1]
        rw [he]
        exact hinv1
  | none =>
    by_cases hc1 : ((s.help_resizing hf).ht1.find hf k).isSome
    · have he : (s.del hf k).2 =
          ({ s.help_resizing hf with
             ht1 := (s.help_resizing hf).ht1.removeKey hf k }).check_load_factor := by
        simp [ProgressiveHashMap.del, hht, hc1]
      rw [he]
      exact (check_load_factor_inv hf _
        (removeKey_ht1_inv hf (s.help_resizing hf) k hinv1)).1
    · have he : (s.del hf k).2 = s.help_resizing hf := by
        simp [ProgressiveHashMap.del, hht, hc1]
      rw [he]
      exact hinv1

theorem lookup_inv (s : ProgressiveHashMap K V) (k : K) (hinv : MapInv hf s) :
    MapInv hf (s.lookup hf k).2 :=
  (help_resizing_inv hf s hinv).1

end MigrationLemmas

/-- C4: the map invariant - both tables well formed, no key stored twice
anywhere, drained buckets empty below the cursor - holds of the fresh map
and is preserved by `lookup`, `set`, `del` and the migration step; under it,
during an active resize every stored key is found in exactly one of the two
tables, never both and never neither, by the routing rule of
`get_insert_table`. -/
theorem claim_C4_exactly_one {K V : Type} [DecidableEq K] (hf : K → Nat)
    (s : ProgressiveHashMap K V) (k : K) (v : V) (hinv : MapInv hf s) :
    MapInv hf (ProgressiveHashMap.emptyMap K V) ∧
    MapInv hf (s.set hf k v) ∧
    MapInv hf (s.del hf k).2 ∧
    MapInv hf (s.lookup hf k).2 ∧
    MapInv hf (s.help_resizing hf) ∧
    (∀ t2, s.ht2 = some t2 →
      (∀ x, x ∈ allKeys s ↔ (x ∈ keysOf s.ht1 ∨ x ∈ keysOf t2)) ∧
      (∀ x, ¬(x ∈ keysOf s.ht1 ∧ x ∈ keysOf t2))) := by
  refine ⟨MapInv_empty hf, set_inv hf s k v hinv, del_inv hf s k hinv,
    lookup_inv hf s k hinv, (help_resizing_inv hf s hinv).1, ?_⟩
  intro t2 hht
  have hnd := hinv.2.2.1
  rw [allKeys_some s t2 hht] at hnd
  constructor
  · intro x
    rw [allKeys_some s t2 hht]
    exact List.mem_append
  · intro x hx
    exact (List.disjoint_of_nodup_append hnd) hx.1 hx.2

/-- Witness for C4: instantiate at the fresh map, whose invariant holds,
with a concrete key and value. -/
theorem claim_C4_witness :
    MapInv (id : Nat → Nat)
      ((ProgressiveHashMap.emptyMap Nat Nat).set id 3 7) :=
  (claim_C4_exactly_one (id : Nat → Nat) (ProgressiveHashMap.emptyMap Nat Nat) 3 7
    (MapInv_empty id)).2.1

theorem afind_aset_self {κ α : Type} [DecidableEq κ] (l : List (κ × α)) (k : κ) (a : α) :
    afind (aset l k a) k = some a := by
  induction l with
  | nil => simp [aset, afind]
  | cons p rest ih =>
    by_cases he : p.1 = k
    · cases p
      simp_all [aset, afind]
    · cases p
      simp_all [aset, afind]

theorem ginsert_afind (l : List (Nat × List (Nat × String))) (f : Nat)
    (h : afind l f = none) : afind (ginsert l f) f = some [] := by
  induction l with
  | nil => simp [ginsert, afind]
  | cons p rest ih =>
    cases p with
    | mk f' ns =>
      simp only [afind] at h
      by_cases he : f' = f
      · rw [if_pos he] at h
        exact absurd h (by simp)
      · rw [if_neg he] at h
        simp only [ginsert]
        by_cases hlt : f < f'
        · rw [if_pos hlt]
          simp [afind]
        · rw [if_neg hlt]
          simp only [afind, if_neg he]
          exact ih h

theorem gmodify_afind_self (l : List (Nat × List (Nat × String))) (f : Nat)
    (g : List (Nat × String) → List (Nat × String)) (ns : List (Nat × String))
    (h : afind l f = some ns) : afind (gmodify l f g) f = some (g ns) := by
  induction l with
  | nil => exact absurd h (by simp [afind])
  | cons p rest ih =>
    cases p with
    | mk f' ns' =>
      simp only [afind] at h
      by_cases he : f' = f
      · rw [if_pos he] at h
        injection h with h
        simp only [gmodify, if_pos he, afind]
        rw [h]
      · rw [if_neg he] at h
        simp only [gmodify, if_neg he, afind]
        exact ih h

theorem sweepGo_clears (now : Int) (l : List (Int × String)) (s : Srv)
    (hs : ttlSorted l) : ∀ p ∈ (sweepGo now l s).1, now < p.1 := by
  induction l generalizing s with
  | nil => intro p hp; exact absurd hp (by simp [sweepGo])
  | cons q rest ih =>
    cases q with
    | mk d k =>
      intro p hp
      by_cases hd : d ≤ now
      · rw [show sweepGo now ((d, k) :: rest) s = sweepGo now rest (cleanupOne k s) by
          simp [sweepGo, hd]] at hp
        exact ih (cleanupOne k s) (List.Pairwise.sublist (List.sublist_cons_self _ _) hs) p hp
      · rw [show sweepGo now ((d, k) :: rest) s = ((d, k) :: rest, s) by
          simp [sweepGo, hd]] at hp
        rcases List.mem_cons.mp hp with h1 | h2
        · rw [h1]
          omega
        · have hrel := (List.pairwise_cons.mp hs).1 p h2
          rcases hrel with hlt | ⟨heq, _⟩
          · omega
          · omega

theorem cleanup_clears (now : Int) (s : Srv) (hs : ttlSorted s.ttl_set) :
    ∀ p ∈ (cleanup_expired now s).ttl_set, now < p.1 := by
  intro p hp
  exact sweepGo_clears now s.ttl_set s hs p hp

theorem sweepGo_noop (now : Int) (l : List (Int × String)) (s : Srv)
    (h : ∀ p ∈ l, now < p.1) : sweepGo now l s = (l, s) := by
  cases l with
  | nil => rfl
  | cons q rest =>
    cases q with
    | mk d k =>
      have hd : ¬(d ≤ now) := by
        have := h (d, k) (by simp)
        omega
      simp [sweepGo, hd]

theorem cleanup_noop (now : Int) (s : Srv) (h : ∀ p ∈ s.ttl_set, now < p.1) :
    cleanup_expired now s = s := by
  unfold cleanup_expired
  rw [sweepGo_noop now s.ttl_set s h]

theorem do_request_set_eq (k v : String) (now : Int) (s : Srv) :
    do_request ["set", k, v] now s =
    some ({ status := RES_OK, payload := "" }, setPlain k v now (cleanup_expired now s)) := by
  simp [do_request]

theorem do_request_get_hit (k : String) (now : Int) (s : Srv) (e : SrvEntry)
    (hfind : afind (cleanup_expired now s).data k = some e)
    (hexp : isExpired now e = false) :
    do_request ["get", k] now s =
    some ({ status := RES_OK, payload := e.value },
      update_lfu k (update_lru k (cleanup_expired now s))) := by
  simp [do_request, hfind, hexp]

theorem update_lru_facts (k : String) (s : Srv) (e : SrvEntry)
    (h : afind s.data k = some e) :
    afind (update_lru k s).data k = some { e with lru_id := s.next_id } ∧
    (update_lru k s).lfu_key_to_freq = s.lfu_key_to_freq ∧
    (update_lru k s).lfu_map = s.lfu_map := by
  unfold update_lru
  rw [h]
  exact ⟨afind_aset_self s.data k _, rfl, rfl⟩

theorem update_lfu_facts (k : String) (s : Srv) (e : SrvEntry)
    (h : afind s.data k = some e) :
    (afind (update_lfu k s).data k).map SrvEntry.access_count = some (e.access_count + 1) ∧
    afind (update_lfu k s).lfu_key_to_freq k = some (e.access_count + 1) ∧
    (∃ i ns, afind (update_lfu k s).lfu_map (e.access_count + 1) = some ((i, k) :: ns)) := by
  simp only [update_lfu, h]
  refine ⟨?_, ?_, ?_⟩
  · rw [afind_aset_self]
    rfl
  · rw [afind_aset_self]
  · cases hg : afind (lfuDetach k e s).lfu_map (e.access_count + 1) with
    | some ns =>
      refine ⟨(lfuDetach k e s).next_id, ns, ?_⟩
      dsimp only
      exact gmodify_afind_self _ _ _ ns hg
    | none =>
      refine ⟨(lfuDetach k e s).next_id, [], ?_⟩
      dsimp only
      exact gmodify_afind_self _ _ _ []
        (ginsert_afind (lfuDetach k e s).lfu_map (e.access_count + 1) hg)

/-- C6: from any cache state whose TTL pair set is ordered (as `std::set`
keeps it), `set k v` immediately followed by `get k` (same instant) answers
`RES_OK` with payload exactly `v`, and the `get` raises the key's access
count from 0 to 1, rebinding it at the head of frequency group 1. -/
theorem claim_C6_set_get_roundtrip (s : Srv) (now : Int) (k v : String)
    (hs : ttlSorted s.ttl_set) :
    ∃ s1 s2 : Srv,
      do_request ["set", k, v] now s = some ({ status := RES_OK, payload := "" }, s1) ∧
      do_request ["get", k] now s1 = some ({ status := RES_OK, payload := v }, s2) ∧
      (afind s1.data k).map SrvEntry.access_count = some 0 ∧
      afind s1.lfu_key_to_freq k = some 0 ∧
      (afind s2.data k).map SrvEntry.access_count = some 1 ∧
      afind s2.lfu_key_to_freq k = some 1 ∧
      (∃ i ns, afind s2.lfu_map 1 = some ((i, k) :: ns)) := by
  have hclear := cleanup_clears now s hs
  have hfind1 : afind (setPlain k v now (cleanup_expired now s)).data k =
      some { value := v, ttlStr := "", created_at := now, expires_at := 0,
             access_count := 0, lru_id := (cleanup_expired now s).next_id,
             lfu_id := (cleanup_expired now s).next_id + 1, has_ttl := false } := by
    simp only [setPlain]
    exact afind_aset_self _ k _
  have hkf1 : afind (setPlain k v now (cleanup_expired now s)).lfu_key_to_freq k =
      some 0 := by
    simp only [setPlain]
    exact afind_aset_self _ k _
  have hnoop : cleanup_expired now (setPlain k v now (cleanup_expired now s)) =
      setPlain k v now (cleanup_expired now s) := by
    refine cleanup_noop now _ ?_
    intro p hp
    exact hclear p hp
  have hget := do_request_get_hit k now (setPlain k v now (cleanup_expired now s))
    { value := v, ttlStr := "", created_at := now, expires_at := 0,
      access_count := 0, lru_id := (cleanup_expired now s).next_id,
      lfu_id := (cleanup_expired now s).next_id + 1, has_ttl := false }
    (by rw [hnoop]; exact hfind1) rfl
  rw [hnoop] at hget
  obtain ⟨hlru1, -, -⟩ := update_lru_facts k _ _ hfind1
  obtain ⟨hlfu1, hlfu2, hlfu3⟩ := update_lfu_facts k _ _ hlru1
  refine ⟨setPlain k v now (cleanup_expired now s),
    update_lfu k (update_lru k (setPlain k v now (cleanup_expired now s))),
    do_request_set_eq k v now s, hget, ?_, hkf1, ?_, ?_, ?_⟩
  · rw [hfind1]
    rfl
  · simpa using hlfu1
  · simpa using hlfu2
  · simpa using hlfu3

/-- Witness for C6: the round trip on the empty cache for key `k`, value
`v`. -/
theorem claim_C6_witness :
    ∃ s1 s2 : Srv,
      do_request ["set", "k", "v"] 0 srvEmpty =
        some ({ status := RES_OK, payload := "" }, s1) ∧
      do_request ["get", "k"] 0 s1 = some ({ status := RES_OK, payload := "v" }, s2) ∧
      (afind s1.data "k").map SrvEntry.access_count = some 0 ∧
      afind s1.lfu_key_to_freq "k" = some 0 ∧
      (afind s2.data "k").map SrvEntry.access_count = some 1 ∧
      afind s2.lfu_key_to_freq "k" = some 1 ∧
      (∃ i ns, afind s2.lfu_map 1 = some ((i, "k") :: ns)) :=
  claim_C6_set_get_roundtrip srvEmpty 0 "k" "v" (by simp [ttlSorted, srvEmpty])

end Hexagon
